import Mathlib

/-!
Verification of the noema front end and evaluator (src/lexer.c, src/parser.c,
src/diag.c, src/runtime.c, src/noema.c).  The C code is shallowly embedded:
strings and message buffers are `List Char`, the lexer's mutable struct is the
record `LexerSt`, fallible calls return `Option`/`Except`, and the internal
token loop takes explicit fuel (the C loop terminates by consuming input; fuel
exhaustion is modelled as `none` and never occurs at the concrete inputs used).
-/

/-- Token kinds, mirroring `TokenType` in src/lexer.h. -/
inductive TokType
  | INVALID | NEWLINE | INDENT | DEDENT | COLON | EOFTOK
  | IDENTIFIER | KEYWORD | NUMBER | STRING | ASSIGN | OPERATOR | COMPARATOR | PAREN
  deriving DecidableEq, Repr

/-- A token, mirroring `Token` in src/lexer.h: kind, bounded text payload,
1-based line/column.  `NOEMA_TOKEN_VALUE_MAX` is 256, so the payload holds at
most 255 characters (`make_tok` truncates with strncpy). -/
structure Token where
  type : TokType
  value : List Char
  line : Nat
  column : Nat
  deriving DecidableEq, Repr

/-- `make_tok` in src/lexer.c: builds a token, truncating the value to
`NOEMA_TOKEN_VALUE_MAX - 1 = 255` characters. -/
def makeTok (t : TokType) (val : List Char) (line col : Nat) : Token :=
  { type := t, value := val.take 255, line := line, column := col }

/-- Decimal rendering of a Nat, as C's printf `%d` renders the nonnegative
ints that reach `diag_format` (line and column numbers). -/
def natChars (n : Nat) : List Char := Nat.toDigits 10 n

/-- `diag_format` in src/diag.c before the snprintf truncation: picks one of
three layouts depending on whether line and column are known (positive). -/
def diagChars (path : List Char) (line col : Nat) (kind msg : List Char) : List Char :=
  if 0 < line ∧ 0 < col then
    path ++ ':' :: natChars line ++ ':' :: natChars col ++ ':' :: ' ' :: (kind ++ ':' :: ' ' :: msg)
  else if 0 < line then
    path ++ ':' :: natChars line ++ ':' :: ' ' :: (kind ++ ':' :: ' ' :: msg)
  else
    path ++ ':' :: ' ' :: (kind ++ ':' :: ' ' :: msg)

/-- `diag_format` with its snprintf capacity: at most `cap - 1` characters are
written into the caller's buffer. -/
def diagFormat (cap : Nat) (path : List Char) (line col : Nat) (kind msg : List Char) : List Char :=
  (diagChars path line col kind msg).take (cap - 1)

/-- The lexer struct (src/lexer.c `struct Lexer`), minus the one-token peek
buffer, which `LexerFull` adds.  `input` is the list of lines `fgets` would
deliver (each normally ending in a newline character); `linebuf`/`pos` are the
current line and cursor; the indent stack is a list with its top first (the C
array cell `indent_stack[indent_top]` is the head, `indent_stack[0] = 0` is the
last element).  `errLine`, `errCol`, `errMsg` record the arguments of the
first `set_error` call alongside the formatted `err`, for stating where an
error was raised. -/
structure LexerSt where
  input : List (List Char)
  path : List Char
  linebuf : List Char
  pos : Nat
  lineNum : Nat
  indentStack : List Nat
  pendingIndents : Nat
  pendingDedents : Nat
  parenDepth : Nat
  error : Bool
  err : List Char
  errLine : Nat
  errCol : Nat
  errMsg : List Char
  deriving DecidableEq, Repr

/-- `lexer_create`: the initial lexer state for a path and input lines. -/
def initLexer (path : List Char) (input : List (List Char)) : LexerSt :=
  { input := input, path := path, linebuf := [], pos := 0, lineNum := 0,
    indentStack := [0], pendingIndents := 0, pendingDedents := 0,
    parenDepth := 0, error := false, err := [], errLine := 0, errCol := 0, errMsg := [] }

/-- `set_error` in src/lexer.c: latched - once `error` is set, later calls do
nothing.  The formatted message is truncated to the 512-byte `err` buffer. -/
def setErrorL (st : LexerSt) (line col : Nat) (msg : List Char) : LexerSt :=
  if st.error then st
  else { st with error := true,
                 err := diagFormat 512 st.path line col ("lexer error".toList) msg,
                 errLine := line, errCol := col, errMsg := msg }

/-- `read_next_line`'s CRLF normalization: a trailing `\r\n` becomes `\n`. -/
def stripCRLF (l : List Char) : List Char :=
  match l.reverse with
  | '\n' :: '\r' :: rest => ('\n' :: rest).reverse
  | _ => l

/-- `is_line_blank_or_comment` in src/lexer.c: leading spaces then end of
line, end of buffer, or `#`. -/
def isLineBlankOrComment (l : List Char) : Bool :=
  match l.dropWhile (fun c => c = ' ') with
  | [] => true
  | '\n' :: _ => true
  | '#' :: _ => true
  | _ => false

/-- `count_indent_spaces`: consumes leading spaces from the cursor; a tab is a
latched lexical error at the tab's column. -/
def countIndentSpaces (st : LexerSt) : Nat × LexerSt :=
  let spaces := ((st.linebuf.drop st.pos).takeWhile (fun c => c = ' ')).length
  let st1 := { st with pos := st.pos + spaces }
  match st1.linebuf.drop st1.pos with
  | '\t' :: _ => (0, setErrorL st1 st1.lineNum (st1.pos + 1) ("tab character is not allowed (use 4 spaces)".toList))
  | _ => (spaces, st1)

/-- `skip_inline_ws`: consumes spaces; stops with a latched error at a tab. -/
def skipInlineWs (st : LexerSt) : LexerSt :=
  let spaces := ((st.linebuf.drop st.pos).takeWhile (fun c => c = ' ')).length
  let st1 := { st with pos := st.pos + spaces }
  match st1.linebuf.drop st1.pos with
  | '\t' :: _ => setErrorL st1 st1.lineNum (st1.pos + 1) ("tab character is not allowed (use 4 spaces)".toList)
  | _ => st1

/-- The fixed keyword set of `is_keyword` in src/lexer.c. -/
def keywordList : List (List Char) :=
  ["si", "aliosi", "alio", "pro", "dum", "frange", "perge", "munus", "redit",
   "conare", "nisi", "denique", "iacta", "import", "verum", "falsum", "nulla",
   "et", "aut", "non", "in"].map String.toList

/-- `is_keyword`. -/
def isKeyword (s : List Char) : Bool := keywordList.contains s

/-- `lex_number`: a run of ASCII digits; the token text keeps at most 255 of
them but the cursor passes them all. -/
def lexNumber (st : LexerSt) (startCol : Nat) : Token × LexerSt :=
  let digits := (st.linebuf.drop st.pos).takeWhile Char.isDigit
  (makeTok .NUMBER digits st.lineNum startCol, { st with pos := st.pos + digits.length })

/-- `lex_identifier_or_keyword`: letters, digits, underscore and dot; the
keyword test runs on the truncated buffer, as in C. -/
def lexIdentKw (st : LexerSt) (startCol : Nat) : Token × LexerSt :=
  let chars := (st.linebuf.drop st.pos).takeWhile (fun c => c.isAlphanum || c = '_' || c = '.')
  let buf := chars.take 255
  let ty := if isKeyword buf then TokType.KEYWORD else TokType.IDENTIFIER
  (makeTok ty buf st.lineNum startCol, { st with pos := st.pos + chars.length })

/-- `lex_string`: content up to the closing quote on the same line; reaching
the end of the line first is an "unterminated string literal" error and the
token carries an empty payload. -/
def lexStringTok (st : LexerSt) (startCol : Nat) : Token × LexerSt :=
  let afterQuote := st.pos + 1
  let content := (st.linebuf.drop afterQuote).takeWhile (fun c => c ≠ '"' && c ≠ '\n')
  let stopPos := afterQuote + content.length
  match st.linebuf.drop stopPos with
  | '"' :: _ => (makeTok .STRING content st.lineNum startCol, { st with pos := stopPos + 1 })
  | _ =>
    (makeTok .STRING [] st.lineNum startCol,
     setErrorL { st with pos := stopPos } st.lineNum startCol ("unterminated string literal".toList))

/-- `lex_operator_or_punct`.  The call site has already peeked the character
`c` and advanced the cursor past it (C's `next_ch`); the dispatch in
`next_token_internal` guarantees the character exists. -/
def lexOpPunct (st : LexerSt) (c : Char) (startCol : Nat) : Token × LexerSt :=
  if c = '=' then
    match st.linebuf.drop st.pos with
    | '=' :: _ => (makeTok .COMPARATOR ("==".toList) st.lineNum startCol, { st with pos := st.pos + 1 })
    | _ => (makeTok .ASSIGN ("=".toList) st.lineNum startCol, st)
  else if c = '!' then
    match st.linebuf.drop st.pos with
    | '=' :: _ => (makeTok .COMPARATOR ("!=".toList) st.lineNum startCol, { st with pos := st.pos + 1 })
    | _ => (makeTok .OPERATOR ("!".toList) st.lineNum startCol,
            setErrorL st st.lineNum startCol ("unexpected '!'".toList))
  else if c = '<' then
    match st.linebuf.drop st.pos with
    | '=' :: _ => (makeTok .COMPARATOR ("<=".toList) st.lineNum startCol, { st with pos := st.pos + 1 })
    | _ => (makeTok .COMPARATOR ("<".toList) st.lineNum startCol, st)
  else if c = '>' then
    match st.linebuf.drop st.pos with
    | '=' :: _ => (makeTok .COMPARATOR (">=".toList) st.lineNum startCol, { st with pos := st.pos + 1 })
    | _ => (makeTok .COMPARATOR (">".toList) st.lineNum startCol, st)
  else if c = '+' ∨ c = '-' ∨ c = '*' ∨ c = '/' ∨ c = '%' then
    (makeTok .OPERATOR [c] st.lineNum startCol, st)
  else if c = '(' then
    (makeTok .PAREN ("(".toList) st.lineNum startCol, { st with parenDepth := st.parenDepth + 1 })
  else if c = ')' then
    (makeTok .PAREN (")".toList) st.lineNum startCol,
     if 0 < st.parenDepth then { st with parenDepth := st.parenDepth - 1 } else st)
  else if c = ':' then
    (makeTok .COLON (":".toList) st.lineNum startCol, st)
  else
    (makeTok .INVALID ("?".toList) st.lineNum startCol,
     setErrorL st st.lineNum startCol ("unexpected character ".toList ++ '\'' :: c :: ['\'']))

/-- The dedent pop loop of `next_token_internal`: pops indent levels while the
top exceeds the new level and more than the bottom cell remains, returning the
remaining stack and the number of pops. -/
def popLevels : List Nat → Nat → List Nat × Nat
  | x :: y :: rest, newI =>
    if newI < x then
      let (s, p) := popLevels (y :: rest) newI
      (s, p + 1)
    else (x :: y :: rest, 0)
  | s, _ => (s, 0)

/-- The line-acquisition loop of `next_token_internal` (the `while` over
`read_next_line`), written with the remaining input made the structural
recursion argument (every call site passes the state's own `input` field):
returns `.inl st` when a line is ready for ordinary tokenization,
`.inr (tok, st)` when the loop itself produces a token (INDENT/DEDENT/EOF, or
an EOF-typed token carrying a latched error). -/
def ensureLineGo : List (List Char) → LexerSt → LexerSt ⊕ (Token × LexerSt)
  | [], st =>
    -- fgets failed: flush open indent levels, else end of input
    let st0 := { st with input := [], linebuf := [] }
    if 1 < st0.indentStack.length then
      let n := st0.indentStack.length - 1
      .inr (makeTok .DEDENT ("DEDENT".toList) st0.lineNum 1,
            { st0 with indentStack := [st0.indentStack.getLastD 0], pendingDedents := n - 1 })
    else
      .inr (makeTok .EOFTOK [] st0.lineNum 1, st0)
  | ln :: rest, st =>
    let st1 := { st with input := rest, linebuf := stripCRLF ln, pos := 0, lineNum := st.lineNum + 1 }
    if isLineBlankOrComment st1.linebuf then
      ensureLineGo rest { st1 with pos := st1.linebuf.length }
    else if st1.parenDepth = 0 then
      let oldIndent := st1.indentStack.headD 0
      let (spaces, st2) := countIndentSpaces st1
      if st2.error then .inr (makeTok .EOFTOK [] st2.lineNum 1, st2)
      else if spaces % 4 ≠ 0 then
        let st3 := setErrorL st2 st2.lineNum 1 ("indentation must be multiple of 4 spaces".toList)
        .inr (makeTok .EOFTOK [] st3.lineNum 1, st3)
      else
        let newIndent := spaces / 4
        if oldIndent < newIndent then
          if 256 ≤ st2.indentStack.length then
            let st3 := setErrorL st2 st2.lineNum 1 ("indent stack overflow".toList)
            .inr (makeTok .EOFTOK [] st3.lineNum 1, st3)
          else
            .inr (makeTok .INDENT ("INDENT".toList) st2.lineNum 1,
                  { st2 with indentStack := newIndent :: st2.indentStack,
                             pendingIndents := (newIndent - oldIndent) - 1 })
        else if newIndent < oldIndent then
          let (stack2, pops) := popLevels st2.indentStack newIndent
          if stack2.headD 0 ≠ newIndent then
            let st3 := setErrorL { st2 with indentStack := stack2 } st2.lineNum 1 ("inconsistent dedent".toList)
            .inr (makeTok .EOFTOK [] st3.lineNum 1, st3)
          else
            .inr (makeTok .DEDENT ("DEDENT".toList) st2.lineNum 1,
                  { st2 with indentStack := stack2, pendingDedents := pops - 1 })
        else .inl st2
    else
      .inl (skipInlineWs st1)

/-- `next_token_internal`'s entry into the line loop: skipped entirely when a
nonempty current line still has unread characters. -/
def ensureLine (st : LexerSt) : LexerSt ⊕ (Token × LexerSt) :=
  if st.linebuf.length = 0 ∨ st.linebuf.length ≤ st.pos then ensureLineGo st.input st
  else .inl st

/-- `next_token_internal`, with fuel for the one self-recursion (a comment or
line end swallowed inside parentheses).  `none` is fuel exhaustion only. -/
def nextTokenInternal : Nat → LexerSt → Option (Token × LexerSt)
  | 0, _ => none
  | fuel + 1, st =>
    if st.error then some (makeTok .EOFTOK [] st.lineNum (st.pos + 1), st)
    else if 0 < st.pendingIndents then
      some (makeTok .INDENT ("INDENT".toList) st.lineNum 1, { st with pendingIndents := st.pendingIndents - 1 })
    else if 0 < st.pendingDedents then
      some (makeTok .DEDENT ("DEDENT".toList) st.lineNum 1, { st with pendingDedents := st.pendingDedents - 1 })
    else
      match ensureLine st with
      | .inr r => some r
      | .inl st1 =>
        let st2 := skipInlineWs st1
        if st2.error then some (makeTok .EOFTOK [] st2.lineNum (st2.pos + 1), st2)
        else
          let col := st2.pos + 1
          match st2.linebuf.drop st2.pos with
          | '#' :: _ =>
            let st3 := { st2 with pos := st2.linebuf.length }
            if st3.parenDepth = 0 then some (makeTok .NEWLINE ("NEWLINE".toList) st3.lineNum col, st3)
            else nextTokenInternal fuel st3
          | '\n' :: _ =>
            let st3 := { st2 with pos := st2.pos + 1 }
            if st3.parenDepth = 0 then some (makeTok .NEWLINE ("NEWLINE".toList) st3.lineNum col, st3)
            else nextTokenInternal fuel st3
          | [] =>
            if st2.parenDepth = 0 then some (makeTok .NEWLINE ("NEWLINE".toList) st2.lineNum col, st2)
            else nextTokenInternal fuel st2
          | c :: _ =>
            if c = '"' then some (lexStringTok st2 col)
            else if c.isDigit then some (lexNumber st2 col)
            else if c.isAlpha || c = '_' then some (lexIdentKw st2 col)
            else some (lexOpPunct { st2 with pos := st2.pos + 1 } c col)

/-- The full lexer object: the internal state plus the one-token peek buffer
(`has_peek`/`peek_tok` in C, an `Option` here). -/
structure LexerFull where
  core : LexerSt
  buf : Option Token
  deriving DecidableEq, Repr

/-- `lexer_next`: returns and clears a buffered peek token, else pulls one
from `next_token_internal`. -/
def lexerNext (fuel : Nat) (lx : LexerFull) : Option (Token × LexerFull) :=
  match lx.buf with
  | some t => some (t, { lx with buf := none })
  | none =>
    match nextTokenInternal fuel lx.core with
    | none => none
    | some (t, c) => some (t, { core := c, buf := none })

/-- `lexer_peek`: fills the buffer on demand and returns it without
consuming. -/
def lexerPeek (fuel : Nat) (lx : LexerFull) : Option (Token × LexerFull) :=
  match lx.buf with
  | some t => some (t, lx)
  | none =>
    match nextTokenInternal fuel lx.core with
    | none => none
    | some (t, c) => some (t, { core := c, buf := some t })

/-- Drives `next_token_internal` to the first EOF token (as the parser's main
loop does), collecting the emitted tokens, EOF included.  `none` is fuel
exhaustion. -/
def collectTokens : Nat → LexerSt → Option (List Token × LexerSt)
  | 0, _ => none
  | fuel + 1, st =>
    match nextTokenInternal (fuel + 1) st with
    | none => none
    | some (t, st') =>
      if t.type = .EOFTOK then some ([t], st')
      else
        match collectTokens fuel st' with
        | none => none
        | some (ts, stF) => some (t :: ts, stF)

/-- Number of INDENT tokens in a token list. -/
def indentCount (ts : List Token) : Nat := (ts.filter (fun t => t.type = .INDENT)).length

/-- Number of DEDENT tokens in a token list. -/
def dedentCount (ts : List Token) : Nat := (ts.filter (fun t => t.type = .DEDENT)).length

/-! ## Parser error surface (src/parser.c) -/

/-- The parser struct's error latch (src/parser.c `struct Parser`): `error`
flag and the 512-byte `err` buffer, with the `set_error` arguments kept
alongside. -/
structure ParserSt where
  error : Bool
  err : List Char
  errLine : Nat
  errCol : Nat
  errMsg : List Char
  deriving DecidableEq, Repr

/-- `set_error` in src/parser.c: latched, formats with the fixed path
`<input>` and kind `parser error`. -/
def setErrorP (p : ParserSt) (line col : Nat) (msg : List Char) : ParserSt :=
  if p.error then p
  else { p with error := true,
                err := diagFormat 512 ("<input>".toList) line col ("parser error".toList) msg,
                errLine := line, errCol := col, errMsg := msg }

/-- The tail of `parser_parse_program` (src/parser.c): the message placed into
`ParseResult.message` (512-byte buffer).  A pending lexer error is checked
first and surfaced as `lexer error: ` prepended to the lexer's own formatted
message; otherwise the parser's first error is copied; a clean parse surfaces
nothing. -/
def parseFinalMessage (lexError : Bool) (lexMsg : List Char) (parserError : Bool) (parserMsg : List Char) :
    Option (List Char) :=
  if lexError then some ((("lexer error: ".toList) ++ lexMsg).take 511)
  else if parserError then some (parserMsg.take 511)
  else none

/-! ## Runtime (src/runtime.c) -/

/-- Runtime values (`Value` in src/runtime.h): the C union carries kind,
`int_value` (also the 0/1 payload of bools) and an owned string.  Arithmetic
stays within the host's 32-bit `int`. -/
inductive Value
  | vnull
  | vint (i : Int)
  | vbool (b : Bool)
  | vstring (s : List Char)
  deriving DecidableEq, Repr

/-- Two's-complement wrap to the host's 32-bit signed int, applied where C
arithmetic would overflow. -/
def wrap32 (n : Int) : Int := (n + 2 ^ 31) % 2 ^ 32 - 2 ^ 31

/-- `value_copy`: a deep copy; with immutable Lean data the copy is
structurally the same value (the C duplication of the string buffer has no
observable effect beyond ownership). -/
def valueCopy : Value → Value
  | .vnull => .vnull
  | .vint i => .vint i
  | .vbool b => .vbool b
  | .vstring s => .vstring s

/-- `value_truthy`: Null is false, Bool is itself, Int is nonzero, String is
nonempty. -/
def valueTruthy : Value → Bool
  | .vnull => false
  | .vbool b => b
  | .vint i => i ≠ 0
  | .vstring s => !s.isEmpty

/-- `values_equal`: kind mismatch is plain inequality; same kinds compare
payloads (null always equal). -/
def valuesEqual : Value → Value → Bool
  | .vnull, .vnull => true
  | .vint a, .vint b => a = b
  | .vbool a, .vbool b => a = b
  | .vstring a, .vstring b => a = b
  | _, _ => false

/-- Expression operators (`ExprOp` in src/parser.h). -/
inductive ExprOp
  | add | sub | mul | div | mod
  | oeq | one | olt | ole | ogt | oge
  | oand | oor
  | onot | oneg
  deriving DecidableEq, Repr

/-- Expressions (`Expr` in src/parser.h): literals of the four kinds,
variable references, unary and binary nodes, each carrying line/column. -/
inductive Expr
  | litInt (v : Int) (line col : Nat)
  | litBool (b : Bool) (line col : Nat)
  | litNull (line col : Nat)
  | litString (s : List Char) (line col : Nat)
  | evar (name : List Char) (line col : Nat)
  | unary (op : ExprOp) (rhs : Expr) (line col : Nat)
  | binary (op : ExprOp) (lhs rhs : Expr) (line col : Nat)
  deriving DecidableEq, Repr

/-- Statements (`Stmt` in src/parser.h); an if statement holds its ordered
branch list, a `none` condition being the terminal `alio` branch. -/
inductive Stmt
  | simport (module : List Char) (line col : Nat)
  | sassign (target : List Char) (value : Expr) (line col : Nat)
  | sprint (arg : Expr) (line col : Nat)
  | sif (branches : List (Option Expr × List Stmt)) (line col : Nat)

/-- The variable environment: the `vars` array of `struct Runtime` scans in
slot order and fills the first free slot, and nothing is ever removed, so the
live slots are a prefix in creation order - a list of (name, value) pairs.
`MAX_VARS` is 1000. -/
abbrev Env := List (List Char × Value)

/-- `MAX_VARS` in src/runtime.c. -/
def maxVars : Nat := 1000

/-- `find_var`: first slot whose name matches. -/
def findVar (env : Env) (name : List Char) : Option Value :=
  match env.find? (fun p => p.1 = name) with
  | some p => some p.2
  | none => none

/-- `upsert_var`: an existing name is returned as-is; otherwise a fresh slot
is claimed and initialised to Null, unless all `MAX_VARS` slots are in use
(`none`). -/
def upsertVar (env : Env) (name : List Char) : Option Env :=
  if (env.find? (fun p => p.1 = name)).isSome then some env
  else if maxVars ≤ env.length then none
  else some (env ++ [(name, Value.vnull)])

/-- Storing through the pointer `upsert_var` returned: replace the value
bound to `name`. -/
def bindVar (env : Env) (name : List Char) (v : Value) : Env :=
  env.map (fun p => if p.1 = name then (name, v) else p)

/-- `runtime_error`: formats with kind `runtime error` into the 512-byte
buffer. -/
def rtErr (path : List Char) (line col : Nat) (msg : List Char) : List Char :=
  diagFormat 512 path line col ("runtime error".toList) msg

/-- The arithmetic/comparison dispatch of `eval_binary` once both operands
are evaluated (everything after the short-circuit `et`/`aut` cases in
src/runtime.c). -/
def applyBinary (path : List Char) (op : ExprOp) (lhs rhs : Value) (line col : Nat) :
    Except (List Char) Value :=
  match op with
  | .add =>
    match lhs, rhs with
    | .vint a, .vint b => .ok (.vint (wrap32 (a + b)))
    | .vstring a, .vstring b => .ok (.vstring (a ++ b))
    | _, _ => .error (rtErr path line col ("operator '+' expects int+int or string+string".toList))
  | .sub =>
    match lhs, rhs with
    | .vint a, .vint b => .ok (.vint (wrap32 (a - b)))
    | _, _ => .error (rtErr path line col ("arithmetic operators expect integers".toList))
  | .mul =>
    match lhs, rhs with
    | .vint a, .vint b => .ok (.vint (wrap32 (a * b)))
    | _, _ => .error (rtErr path line col ("arithmetic operators expect integers".toList))
  | .div =>
    match lhs, rhs with
    | .vint a, .vint b =>
      if b = 0 then .error (rtErr path line col ("division by zero".toList))
      else .ok (.vint (wrap32 (Int.tdiv a b)))
    | _, _ => .error (rtErr path line col ("arithmetic operators expect integers".toList))
  | .mod =>
    match lhs, rhs with
    | .vint a, .vint b =>
      if b = 0 then .error (rtErr path line col ("modulo by zero".toList))
      else .ok (.vint (wrap32 (Int.tmod a b)))
    | _, _ => .error (rtErr path line col ("arithmetic operators expect integers".toList))
  | .oeq => .ok (.vbool (valuesEqual lhs rhs))
  | .one => .ok (.vbool (!valuesEqual lhs rhs))
  | .olt =>
    match lhs, rhs with
    | .vint a, .vint b => .ok (.vbool (decide (a < b)))
    | _, _ => .error (rtErr path line col ("comparison operators expect integers".toList))
  | .ole =>
    match lhs, rhs with
    | .vint a, .vint b => .ok (.vbool (decide (a ≤ b)))
    | _, _ => .error (rtErr path line col ("comparison operators expect integers".toList))
  | .ogt =>
    match lhs, rhs with
    | .vint a, .vint b => .ok (.vbool (decide (b < a)))
    | _, _ => .error (rtErr path line col ("comparison operators expect integers".toList))
  | .oge =>
    match lhs, rhs with
    | .vint a, .vint b => .ok (.vbool (decide (b ≤ a)))
    | _, _ => .error (rtErr path line col ("comparison operators expect integers".toList))
  | _ => .error (rtErr path line col ("unsupported binary operator".toList))

/-- `eval_expr` (with `eval_unary` and `eval_binary`): literals construct
fresh values; a variable lookup misses with an "undefined variable" error or
yields a copy of the stored value; `non` negates truthiness; unary `-`
requires an Int; `et`/`aut` short-circuit and always rebuild a fresh Bool
from truthiness; the remaining binary operators evaluate both sides then
dispatch through `applyBinary`. -/
def evalExpr (env : Env) (path : List Char) : Expr → Except (List Char) Value
  | .litInt v _ _ => .ok (.vint v)
  | .litBool b _ _ => .ok (.vbool b)
  | .litNull _ _ => .ok .vnull
  | .litString s _ _ => .ok (.vstring s)
  | .evar name line col =>
    match findVar env name with
    | none => .error (rtErr path line col (("undefined variable ".toList) ++ '\'' :: (name ++ ['\''])))
    | some v => .ok (valueCopy v)
  | .unary op rhs line col =>
    match evalExpr env path rhs with
    | .error e => .error e
    | .ok v =>
      match op with
      | .onot => .ok (.vbool (!valueTruthy v))
      | .oneg =>
        match v with
        | .vint i => .ok (.vint (wrap32 (-i)))
        | _ => .error (rtErr path line col ("unary '-' expects integer".toList))
      | _ => .error (rtErr path line col ("unsupported unary operator".toList))
  | .binary op lhs rhs line col =>
    if op = .oand then
      match evalExpr env path lhs with
      | .error e => .error e
      | .ok lv =>
        if valueTruthy lv then
          match evalExpr env path rhs with
          | .error e => .error e
          | .ok rv => .ok (.vbool (valueTruthy rv))
        else .ok (.vbool false)
    else if op = .oor then
      match evalExpr env path lhs with
      | .error e => .error e
      | .ok lv =>
        if valueTruthy lv then .ok (.vbool true)
        else
          match evalExpr env path rhs with
          | .error e => .error e
          | .ok rv => .ok (.vbool (valueTruthy rv))
    else
      match evalExpr env path lhs with
      | .error e => .error e
      | .ok lv =>
        match evalExpr env path rhs with
        | .error e => .error e
        | .ok rv => applyBinary path op lv rv line col

/-- `print_value`: the line printed for a value (without the terminating
newline character printf appends). -/
def printValue : Value → List Char
  | .vstring s => s
  | .vint i => (toString i).toList
  | .vbool b => if b then "verum".toList else "falsum".toList
  | .vnull => "nulla".toList

mutual

/-- `exec_block`: statements run in order; the first error stops execution,
keeping the environment mutations and output produced so far. -/
def execBlock (path : List Char) (env : Env) : List Stmt → Env × List (List Char) × Option (List Char)
  | [] => (env, [], none)
  | s :: rest =>
    match execStmt path env s with
    | (env1, out1, some e) => (env1, out1, some e)
    | (env1, out1, none) =>
      match execBlock path env1 rest with
      | (env2, out2, r) => (env2, out1 ++ out2, r)

/-- One statement of `exec_block`'s switch: import is a no-op; assignment
upserts the target slot FIRST (capacity error if the environment is full and
the name fresh), then evaluates the right-hand side in the environment that
already contains the fresh Null-bound slot, then stores the value; print
evaluates and renders its argument; `si` delegates to the branch walk. -/
def execStmt (path : List Char) (env : Env) : Stmt → Env × List (List Char) × Option (List Char)
  | .simport _ _ _ => (env, [], none)
  | .sassign target value line col =>
    match upsertVar env target with
    | none => (env, [], some (rtErr path line col ("too many variables".toList)))
    | some env1 =>
      match evalExpr env1 path value with
      | .error e => (env1, [], some e)
      | .ok v => (bindVar env1 target v, [], none)
  | .sprint arg _ _ =>
    match evalExpr env path arg with
    | .error e => (env, [], some e)
    | .ok v => (env, [printValue v], none)
  | .sif branches _ _ => execBranches path env branches

/-- `exec_if`: branches are tried in order; a `none` condition (alio) always
runs; a failing condition aborts; a truthy condition runs its body and ends
the statement. -/
def execBranches (path : List Char) (env : Env) :
    List (Option Expr × List Stmt) → Env × List (List Char) × Option (List Char)
  | [] => (env, [], none)
  | (none, body) :: _ => execBlock path env body
  | (some cond, body) :: rest =>
    match evalExpr env path cond with
    | .error e => (env, [], some e)
    | .ok cv => if valueTruthy cv then execBlock path env body else execBranches path env rest

end

/-- `runtime_exec` (src/runtime.c) as called from `noema_run_file`: an empty
path falls back to `<input>`, the error buffer starts clear, and the program
runs through `exec_block` from an empty environment
(`runtime_create` zeroes every slot). -/
def runtimeExec (program : List Stmt) (path : List Char) : Env × List (List Char) × Option (List Char) :=
  let path := if path.isEmpty then "<input>".toList else path
  execBlock path [] program

/-- `ValueKind` discriminant of a value (src/runtime.h). -/
def valueKind : Value → Nat
  | .vint _ => 1
  | .vstring _ => 2
  | .vbool _ => 3
  | .vnull => 4

/-! ## Claim-side definitions

`claimValidIndent` renders the wording of claim C1 ("leading-space counts are
multiples of 4 and every dedent returns to a previously pushed level"), to be
compared with what the lexer actually does.  It is written from the claim's
words, not from the source. -/

/-- Walk of the claimed level discipline: an increase pushes the new level, a
decrease must land exactly on a previously pushed level. -/
def claimValidIndentLevels : List Nat → List Nat → Bool
  | _, [] => true
  | stack, l :: rest =>
    let top := stack.headD 0
    if top < l then claimValidIndentLevels (l :: stack) rest
    else if l < top then
      let stack' := stack.dropWhile (fun x => l < x)
      if stack'.headD 0 = l then claimValidIndentLevels stack' rest else false
    else claimValidIndentLevels stack rest

/-- Claim C1's "input whose indentation is valid": every logical (non-blank,
non-comment) line indents by whole 4-space units and every dedent returns to
a previously pushed level. -/
def claimValidIndent (lines : List (List Char)) : Bool :=
  let logical := (lines.map stripCRLF).filter (fun l => !isLineBlankOrComment l)
  let spaceCounts := logical.map (fun l => (l.takeWhile (fun c => c = ' ')).length)
  spaceCounts.all (fun n => n % 4 = 0) && claimValidIndentLevels [0] (spaceCounts.map (· / 4))

/-! ## Indent/dedent accounting for C1 -/

/-- Net INDENT-minus-DEDENT emission the indent state still owes: queued
INDENTs count positively, queued DEDENTs and open levels (which each owe one
DEDENT) negatively. -/
def indentDebt (st : LexerSt) : Int :=
  (st.pendingIndents : Int) - (st.pendingDedents : Int) - ((st.indentStack.length : Int) - 1)

/-- Contribution of one token to the INDENT-minus-DEDENT balance. -/
def tokDelta (t : Token) : Int :=
  if t.type = .INDENT then 1 else if t.type = .DEDENT then -1 else 0

/-- INDENT-minus-DEDENT balance of a token list. -/
def deltaSum (ts : List Token) : Int := (ts.map tokDelta).sum

/-- A complete, error-free run in which every indentation increase is a
single level: checked per emitted token, requiring the pending-INDENT queue
to be empty at every state the driver observes (a multi-level jump is exactly
what leaves it nonempty). -/
def traceOk : Nat → LexerSt → Bool
  | 0, _ => false
  | fuel + 1, st =>
    (st.pendingIndents == 0) && (!st.error) &&
    match nextTokenInternal (fuel + 1) st with
    | none => false
    | some (t, st') =>
      if t.type = .EOFTOK then (st'.pendingIndents == 0) && (!st'.error)
      else traceOk fuel st'


/-- The lexer state after peeking the first token of the one-line input
`x` (used by the C10 witness). -/
def c10WitnessPeeked : LexerFull :=
  { core := { input := [], path := "t.noe".toList, linebuf := "x\n".toList, pos := 1,
              lineNum := 1, indentStack := [0], pendingIndents := 0, pendingDedents := 0,
              parenDepth := 0, error := false, err := [], errLine := 0, errCol := 0, errMsg := [] },
    buf := some (makeTok .IDENTIFIER ("x".toList) 1 1) }

/-! ## Theorems -/

/-- C4: evaluating `==` or `!=` on two already-evaluated operand Values never
raises an error: the result is a Bool from `values_equal`, which declares
differing kinds unequal and compares matching kinds by payload (Ints and
Bools by value, Strings by content, Null equal to Null). -/
theorem c4_equality_total (env : Env) (path : List Char) (e1 e2 : Expr) (line col : Nat)
    (v1 v2 : Value) (h1 : evalExpr env path e1 = .ok v1) (h2 : evalExpr env path e2 = .ok v2) :
    (evalExpr env path (.binary .oeq e1 e2 line col) = .ok (.vbool (valuesEqual v1 v2)) ∧
     evalExpr env path (.binary .one e1 e2 line col) = .ok (.vbool (!valuesEqual v1 v2))) ∧
    (valueKind v1 ≠ valueKind v2 → valuesEqual v1 v2 = false) ∧
    (∀ a b : Int, valuesEqual (.vint a) (.vint b) = decide (a = b)) ∧
    (∀ a b : Bool, valuesEqual (.vbool a) (.vbool b) = decide (a = b)) ∧
    (∀ s t : List Char, valuesEqual (.vstring s) (.vstring t) = decide (s = t)) ∧
    valuesEqual .vnull .vnull = true := by
  refine ⟨⟨?_, ?_⟩, ?_, ?_, ?_, ?_, rfl⟩
  · simp [evalExpr, h1, h2, applyBinary]
  · simp [evalExpr, h1, h2, applyBinary]
  · intro hk
    cases v1 <;> cases v2 <;> simp_all [valueKind, valuesEqual]
  · intro a b; rfl
  · intro a b; cases a <;> cases b <;> rfl
  · intro s t; rfl

/-- C4 witness at concrete inputs. -/
theorem c4_witness :
    evalExpr [] ("t".toList) (.litInt 5 1 1) = .ok (.vint 5) ∧
    evalExpr [] ("t".toList) (.litString ("5".toList) 1 6) = .ok (.vstring ("5".toList)) ∧
    evalExpr [] ("t".toList) (.binary .oeq (.litInt 5 1 1) (.litString ("5".toList) 1 6) 1 3)
      = .ok (.vbool false) := by
  refine ⟨rfl, rfl, ?_⟩
  have h := (c4_equality_total [] ("t".toList) (.litInt 5 1 1) (.litString ("5".toList) 1 6)
    1 3 (.vint 5) (.vstring ("5".toList)) rfl rfl).1.1
  simpa using h

/-- C5: `et` and `aut` are short-circuiting - with a non-truthy (resp.
truthy) left operand the result is fixed without the right operand entering
into it at all - and a successful result is always a freshly built Bool
derived from truthiness, never the operand value itself. -/
theorem c5_short_circuit (env : Env) (path : List Char) (lhs rhs : Expr) (line col : Nat) :
    (∀ lv, evalExpr env path lhs = .ok lv → valueTruthy lv = false →
       evalExpr env path (.binary .oand lhs rhs line col) = .ok (.vbool false)) ∧
    (∀ lv, evalExpr env path lhs = .ok lv → valueTruthy lv = true →
       evalExpr env path (.binary .oand lhs rhs line col)
         = (evalExpr env path rhs).map (fun rv => .vbool (valueTruthy rv))) ∧
    (∀ lv, evalExpr env path lhs = .ok lv → valueTruthy lv = true →
       evalExpr env path (.binary .oor lhs rhs line col) = .ok (.vbool true)) ∧
    (∀ lv, evalExpr env path lhs = .ok lv → valueTruthy lv = false →
       evalExpr env path (.binary .oor lhs rhs line col)
         = (evalExpr env path rhs).map (fun rv => .vbool (valueTruthy rv))) ∧
    (∀ v, evalExpr env path (.binary .oand lhs rhs line col) = .ok v → ∃ b, v = .vbool b) ∧
    (∀ v, evalExpr env path (.binary .oor lhs rhs line col) = .ok v → ∃ b, v = .vbool b) := by
  refine ⟨?_, ?_, ?_, ?_, ?_, ?_⟩
  · intro lv h1 ht; simp [evalExpr, h1, ht]
  · intro lv h1 ht
    simp only [evalExpr, reduceIte, h1, ht, if_true]
    cases evalExpr env path rhs <;> simp [Except.map]
  · intro lv h1 ht; simp [evalExpr, h1, ht]
  · intro lv h1 ht
    simp only [evalExpr, reduceIte, h1, ht]
    cases evalExpr env path rhs <;> simp [Except.map]
  · intro v hv
    simp only [evalExpr, reduceIte] at hv
    cases hl : evalExpr env path lhs with
    | error e => rw [hl] at hv; simp at hv
    | ok lv =>
      rw [hl] at hv
      by_cases ht : valueTruthy lv <;> simp [ht] at hv
      · cases hr : evalExpr env path rhs with
        | error e => rw [hr] at hv; simp at hv
        | ok rv => rw [hr] at hv; simp at hv; exact ⟨_, hv.symm⟩
      · exact ⟨_, hv.symm⟩
  · intro v hv
    simp only [evalExpr, reduceIte] at hv
    cases hl : evalExpr env path lhs with
    | error e => rw [hl] at hv; simp at hv
    | ok lv =>
      rw [hl] at hv
      by_cases ht : valueTruthy lv <;> simp [ht] at hv
      · exact ⟨_, hv.symm⟩
      · cases hr : evalExpr env path rhs with
        | error e => rw [hr] at hv; simp at hv
        | ok rv => rw [hr] at hv; simp at hv; exact ⟨_, hv.symm⟩

/-- C5 witness: `falsum et (1/0)` short-circuits past the failing right
operand and yields a fresh Bool. -/
theorem c5_witness :
    evalExpr [] ("t".toList) (.litBool false 1 1) = .ok (.vbool false) ∧
    valueTruthy (.vbool false) = false ∧
    evalExpr [] ("t".toList)
        (.binary .oand (.litBool false 1 1) (.binary .div (.litInt 1 1 12) (.litInt 0 1 14) 1 13) 1 8)
      = .ok (.vbool false) :=
  ⟨rfl, rfl,
   (c5_short_circuit [] ("t".toList) (.litBool false 1 1)
     (.binary .div (.litInt 1 1 12) (.litInt 0 1 14) 1 13) 1 8).1 (.vbool false) rfl rfl⟩

/-- C6: a division or modulo whose right operand is Int 0 fails with the
corresponding runtime error, and a statement list starting with a print of
such an expression produces no output at all - neither from the failing
statement nor from any statement after it. -/
theorem c6_div_mod_zero (env : Env) (path : List Char) (ea eb : Expr) (line col pl pc : Nat)
    (a : Int) (rest : List Stmt)
    (ha : evalExpr env path ea = .ok (.vint a)) (hb : evalExpr env path eb = .ok (.vint 0)) :
    evalExpr env path (.binary .div ea eb line col)
      = .error (rtErr path line col ("division by zero".toList)) ∧
    evalExpr env path (.binary .mod ea eb line col)
      = .error (rtErr path line col ("modulo by zero".toList)) ∧
    execBlock path env (.sprint (.binary .div ea eb line col) pl pc :: rest)
      = (env, [], some (rtErr path line col ("division by zero".toList))) := by
  refine ⟨?_, ?_, ?_⟩
  · simp [evalExpr, ha, hb, applyBinary]
  · simp [evalExpr, ha, hb, applyBinary]
  · simp [execBlock, execStmt, evalExpr, ha, hb, applyBinary]

/-- C6 witness: the program `sonus.dic(1 / 0)` (with a print after it) fails
with a division-by-zero runtime error and prints nothing. -/
theorem c6_witness :
    evalExpr [] ("t.noe".toList) (.litInt 1 1 11) = .ok (.vint 1) ∧
    evalExpr [] ("t.noe".toList) (.litInt 0 1 15) = .ok (.vint 0) ∧
    execBlock ("t.noe".toList) []
        [.sprint (.binary .div (.litInt 1 1 11) (.litInt 0 1 15) 1 13) 1 1,
         .sprint (.litInt 7 2 11) 2 1]
      = ([], [], some (rtErr ("t.noe".toList) 1 13 ("division by zero".toList))) :=
  ⟨rfl, rfl,
   (c6_div_mod_zero [] ("t.noe".toList) (.litInt 1 1 11) (.litInt 0 1 15) 1 13 1 1 1
     [.sprint (.litInt 7 2 11) 2 1] rfl rfl).2.2⟩

/-- C8: referencing an absent variable is a runtime error whose message is
`undefined variable '<name>'`, and execution halts at once - a statement list
whose first statement prints such a reference produces no output from it or
any later statement; a present name evaluates to a (deep) copy of the stored
value. -/
theorem c8_undefined_variable (env : Env) (path name : List Char) (line col pl pc : Nat)
    (rest : List Stmt) :
    (findVar env name = none →
       evalExpr env path (.evar name line col)
         = .error (rtErr path line col (("undefined variable ".toList) ++ '\'' :: (name ++ ['\'']))) ∧
       execBlock path env (.sprint (.evar name line col) pl pc :: rest)
         = (env, [],
            some (rtErr path line col (("undefined variable ".toList) ++ '\'' :: (name ++ ['\'']))))) ∧
    (∀ v, findVar env name = some v → evalExpr env path (.evar name line col) = .ok (valueCopy v)) := by
  constructor
  · intro hmiss
    constructor
    · simp [evalExpr, hmiss]
    · simp [execBlock, execStmt, evalExpr, hmiss]
  · intro v hhit
    simp [evalExpr, hhit]

/-- C8 witness: printing the undefined `x` then printing 7 outputs nothing
and fails with the undefined-variable diagnostic; after binding `x` the
lookup returns the stored value. -/
theorem c8_witness :
    findVar [] ("x".toList) = none ∧
    execBlock ("t.noe".toList) []
        [.sprint (.evar ("x".toList) 1 11) 1 1, .sprint (.litInt 7 2 11) 2 1]
      = ([], [],
         some (rtErr ("t.noe".toList) 1 11 (("undefined variable ".toList) ++ '\'' :: (("x".toList) ++ ['\''])))) ∧
    findVar [(("x".toList), Value.vint 5)] ("x".toList) = some (.vint 5) ∧
    evalExpr [(("x".toList), Value.vint 5)] ("t.noe".toList) (.evar ("x".toList) 3 11)
      = .ok (valueCopy (.vint 5)) :=
  ⟨rfl,
   ((c8_undefined_variable [] ("t.noe".toList) ("x".toList) 1 11 1 1
      [.sprint (.litInt 7 2 11) 2 1]).1 rfl).2,
   rfl,
   (c8_undefined_variable [(("x".toList), Value.vint 5)] ("t.noe".toList) ("x".toList) 3 11 3 1 []).2
     (.vint 5) rfl⟩

/-- C3 counterexample: executing `x = 1 / 0` in an empty environment leaves
the environment CHANGED - the failing right-hand side is evaluated only after
`upsert_var` has already created a Null-bound slot for `x` - contradicting
the claim that a failing right-hand side leaves the environment unchanged
with no new entry for the absent target name. -/
theorem c3_counterexample :
    execStmt ("t.noe".toList) [] (.sassign ("x".toList)
        (.binary .div (.litInt 1 1 5) (.litInt 0 1 9) 1 7) 1 1)
      = ([(("x".toList), Value.vnull)], [],
         some (rtErr ("t.noe".toList) 1 7 ("division by zero".toList))) ∧
    ([(("x".toList), Value.vnull)] : Env) ≠ ([] : Env) := by
  constructor
  · rfl
  · decide

/-- C3 amended: Assign upserts the target slot FIRST and only then evaluates
the right-hand side (in the environment already holding the fresh Null-bound
slot); a failing right-hand side therefore leaves the fresh Null entry
behind, at capacity the surfaced error for a fresh target is `too many
variables` regardless of the right-hand side, and on success the new value is
stored into the upserted slot (create-or-overwrite). -/
theorem c3_assign_upsert_first (env : Env) (path x : List Char) (e : Expr) (line col : Nat) :
    (findVar env x = none → env.length < maxVars →
       (∀ msg, evalExpr (env ++ [(x, .vnull)]) path e = .error msg →
          execStmt path env (.sassign x e line col) = (env ++ [(x, .vnull)], [], some msg)) ∧
       (∀ v, evalExpr (env ++ [(x, .vnull)]) path e = .ok v →
          execStmt path env (.sassign x e line col) = (bindVar (env ++ [(x, .vnull)]) x v, [], none))) ∧
    (findVar env x = none → maxVars ≤ env.length →
       execStmt path env (.sassign x e line col)
         = (env, [], some (rtErr path line col ("too many variables".toList)))) ∧
    (∀ w, findVar env x = some w →
       (∀ msg, evalExpr env path e = .error msg →
          execStmt path env (.sassign x e line col) = (env, [], some msg)) ∧
       (∀ v, evalExpr env path e = .ok v →
          execStmt path env (.sassign x e line col) = (bindVar env x v, [], none))) := by
  refine ⟨?_, ?_, ?_⟩
  · intro hmiss hcap
    have hfind : (env.find? (fun p => p.1 = x)).isSome = false := by
      unfold findVar at hmiss
      cases h : env.find? (fun p => p.1 = x) with
      | none => rfl
      | some p => rw [h] at hmiss; simp at hmiss
    constructor
    · intro msg hmsg
      simp [execStmt, upsertVar, hfind, Nat.not_le.mpr hcap, hmsg]
    · intro v hv
      simp [execStmt, upsertVar, hfind, Nat.not_le.mpr hcap, hv]
  · intro hmiss hcap
    have hfind : (env.find? (fun p => p.1 = x)).isSome = false := by
      unfold findVar at hmiss
      cases h : env.find? (fun p => p.1 = x) with
      | none => rfl
      | some p => rw [h] at hmiss; simp at hmiss
    simp [execStmt, upsertVar, hfind, hcap]
  · intro w hhit
    have hfind : (env.find? (fun p => p.1 = x)).isSome = true := by
      unfold findVar at hhit
      cases h : env.find? (fun p => p.1 = x) with
      | none => rw [h] at hhit; simp at hhit
      | some p => rfl
    constructor
    · intro msg hmsg
      simp [execStmt, upsertVar, hfind, hmsg]
    · intro v hv
      simp [execStmt, upsertVar, hfind, hv]

/-- C3 witness for the amended statement: assigning `5` to the fresh `x`
appends the binding; assigning a failing expression to the present `x` keeps
the environment as the upsert left it. -/
theorem c3_witness :
    findVar [] ("x".toList) = none ∧ ([] : Env).length < maxVars ∧
    evalExpr ([] ++ [(("x".toList), Value.vnull)]) ("t.noe".toList) (.litInt 5 1 5) = .ok (.vint 5) ∧
    execStmt ("t.noe".toList) [] (.sassign ("x".toList) (.litInt 5 1 5) 1 1)
      = (bindVar ([] ++ [(("x".toList), Value.vnull)]) ("x".toList) (.vint 5), [], none) :=
  ⟨rfl, by decide, rfl,
   ((c3_assign_upsert_first [] ("t.noe".toList) ("x".toList) (.litInt 5 1 5) 1 1).1
     rfl (by decide)).2 (.vint 5) rfl⟩

/-- C10: `lexer_peek` is idempotent and consistent with `lexer_next`: a
second peek returns the same token and the very same state, and a next after
a peek returns exactly the peeked token, reaching the same state a plain next
from the original state reaches (the stream advances by exactly that one
token). -/
theorem c10_peek_next (fuel g : Nat) (lx : LexerFull) (t : Token) (s1 : LexerFull)
    (h : lexerPeek fuel lx = some (t, s1)) :
    lexerPeek g s1 = some (t, s1) ∧
    lexerNext g s1 = some (t, { s1 with buf := none }) ∧
    lexerNext fuel lx = some (t, { s1 with buf := none }) := by
  cases hb : lx.buf with
  | some t0 =>
    simp only [lexerPeek, hb, Option.some.injEq, Prod.mk.injEq] at h
    obtain ⟨rfl, rfl⟩ := h
    exact ⟨by simp [lexerPeek, hb], by simp [lexerNext, hb], by simp [lexerNext, hb]⟩
  | none =>
    simp only [lexerPeek, hb] at h
    cases hn : nextTokenInternal fuel lx.core with
    | none => rw [hn] at h; simp at h
    | some r =>
      obtain ⟨tok, c⟩ := r
      rw [hn] at h
      simp only [Option.some.injEq, Prod.mk.injEq] at h
      obtain ⟨rfl, rfl⟩ := h
      refine ⟨by simp [lexerPeek], by simp [lexerNext], ?_⟩
      simp [lexerNext, hb, hn]

/-- C10 witness: a concrete peek, re-peek, and next at the start of a
one-line input. -/
theorem c10_witness :
    lexerPeek 20 ⟨initLexer ("t.noe".toList) ["x\n".toList], none⟩
        = some (makeTok .IDENTIFIER ("x".toList) 1 1, c10WitnessPeeked) ∧
    lexerPeek 20 c10WitnessPeeked = some (makeTok .IDENTIFIER ("x".toList) 1 1, c10WitnessPeeked) ∧
    lexerNext 20 c10WitnessPeeked
      = some (makeTok .IDENTIFIER ("x".toList) 1 1, { c10WitnessPeeked with buf := none }) ∧
    lexerNext 20 ⟨initLexer ("t.noe".toList) ["x\n".toList], none⟩
      = some (makeTok .IDENTIFIER ("x".toList) 1 1, { c10WitnessPeeked with buf := none }) := by
  have h := c10_peek_next 20 20 ⟨initLexer ("t.noe".toList) ["x\n".toList], none⟩
    (makeTok .IDENTIFIER ("x".toList) 1 1) c10WitnessPeeked (by decide)
  exact ⟨by decide, h.1, h.2.1, h.2.2⟩

/-- C9 counterexample: lexing `@` latches an error during a `lexer_peek`
call, yet the very next `lexer_next` call - made after the error - returns
the buffered INVALID token, not an end-of-input token, contradicting "every
subsequent lexer call returns an end-of-input token". -/
theorem c9_counterexample :
    ((lexerPeek 20 ⟨initLexer ("t.noe".toList) ["@\n".toList], none⟩).bind
        (fun r => if r.2.core.error then lexerNext 20 r.2 else none)).map (fun r => r.1.type)
      = some .INVALID ∧ TokType.INVALID ≠ TokType.EOFTOK := by
  constructor
  · rfl
  · decide

/-- C9 amended: errors are latched in both stages - `set_error` never
overwrites an existing message, so the first failure is the one surfaced -
and once the lexer's error flag is set every call into
`next_token_internal` returns an end-of-input token immediately with the
state untouched (in particular `lexer_next` does so whenever no
previously-buffered peek token is pending). -/
theorem c9_error_latched :
    (∀ (st : LexerSt) (line col : Nat) (msg : List Char),
       st.error = true → setErrorL st line col msg = st) ∧
    (∀ (p : ParserSt) (line col : Nat) (msg : List Char),
       p.error = true → setErrorP p line col msg = p) ∧
    (∀ (fuel : Nat) (st : LexerSt), st.error = true →
       nextTokenInternal (fuel + 1) st = some (makeTok .EOFTOK [] st.lineNum (st.pos + 1), st)) ∧
    (∀ (fuel : Nat) (lx : LexerFull), lx.core.error = true → lx.buf = none →
       lexerNext (fuel + 1) lx
         = some (makeTok .EOFTOK [] lx.core.lineNum (lx.core.pos + 1), ⟨lx.core, none⟩)) := by
  refine ⟨?_, ?_, ?_, ?_⟩
  · intro st line col msg h; simp [setErrorL, h]
  · intro p line col msg h; simp [setErrorP, h]
  · intro fuel st h; simp [nextTokenInternal, h]
  · intro fuel lx h hb
    simp [lexerNext, hb, nextTokenInternal, h]

/-- C9 witness: at a concrete errored lexer state, `set_error` is inert and
the next calls return EOF. -/
theorem c9_witness :
    (setErrorL { initLexer ("t.noe".toList) [] with error := true } 1 1 ("x".toList)
       = { initLexer ("t.noe".toList) [] with error := true }) ∧
    (setErrorP ⟨true, [], 0, 0, []⟩ 1 1 ("x".toList) = ⟨true, [], 0, 0, []⟩) ∧
    nextTokenInternal 5 { initLexer ("t.noe".toList) [] with error := true }
      = some (makeTok .EOFTOK [] 0 1, { initLexer ("t.noe".toList) [] with error := true }) ∧
    lexerNext 5 ⟨{ initLexer ("t.noe".toList) [] with error := true }, none⟩
      = some (makeTok .EOFTOK [] 0 1, ⟨{ initLexer ("t.noe".toList) [] with error := true }, none⟩) :=
  ⟨c9_error_latched.1 _ 1 1 ("x".toList) rfl,
   c9_error_latched.2.1 _ 1 1 ("x".toList) rfl,
   c9_error_latched.2.2.1 4 _ rfl,
   c9_error_latched.2.2.2 4 _ rfl rfl⟩

/-- Every diagnostic `diag_format` produces begins with the path it was
given: with a nonempty path, the first character of the output is the path's
first character (the 512-byte cap leaves at least one character). -/
theorem diagFormat_head_of_cons (c : Char) (cs : List Char) (line col : Nat) (kind msg : List Char) :
    (diagFormat 512 (c :: cs) line col kind msg).head? = some c := by
  obtain ⟨T, hT⟩ : ∃ T, diagChars (c :: cs) line col kind msg = c :: T := by
    unfold diagChars
    split_ifs <;> exact ⟨_, rfl⟩
  unfold diagFormat
  rw [hT]
  rfl

/-- C2 counterexample: when the lexer fails (here: a tab on line 1) and the
parser surfaces the failure, the surfaced line is `lexer error: ` prepended
to the lexer's own already-formatted diagnostic.  It therefore begins with
`lexer error: `, not with the path, so it is not of the form
`<path>:<line>:<col>: <kind>: <message>` for the run's path `ex.noe` and any
line, column, kind and message whatsoever - contradicting the claim that the
message surfaced when the lexer fails during parsing follows the diagnostic
format. -/
theorem c2_counterexample :
    ((nextTokenInternal 20 (initLexer ("ex.noe".toList) ["\tx\n".toList])).map
        (fun r => parseFinalMessage r.2.error r.2.err false []))
      = some (some (("lexer error: ex.noe:1:1: lexer error: tab character is not allowed (use 4 spaces)").toList)) ∧
    (∀ (line col : Nat) (kind msg : List Char),
       ("lexer error: ex.noe:1:1: lexer error: tab character is not allowed (use 4 spaces)").toList
         ≠ diagFormat 512 ("ex.noe".toList) line col kind msg) := by
  constructor
  · rfl
  · intro line col kind msg h
    have h1 : (diagFormat 512 ("ex.noe".toList) line col kind msg).head? = some 'e' :=
      diagFormat_head_of_cons 'e' (['x', '.', 'n', 'o', 'e']) line col kind msg
    rw [← h] at h1
    simp at h1

/-- C2 amended: `diag_format` itself follows the three-case diagnostic
format, the lexer stores exactly such a formatted message, parser failures
surface the parser's formatted message verbatim - but a lexer failure
surfacing through `parser_parse_program` is wrapped as `lexer error: `
followed by the lexer's already-formatted diagnostic (so that one surfaced
line does not itself start with the path). -/
theorem c2_diag_format :
    (∀ (path kind msg : List Char) (line col : Nat), 0 < line → 0 < col →
       diagChars path line col kind msg
         = path ++ ':' :: natChars line ++ ':' :: natChars col ++ ':' :: ' ' :: (kind ++ ':' :: ' ' :: msg)) ∧
    (∀ (path kind msg : List Char) (line : Nat), 0 < line →
       diagChars path line 0 kind msg
         = path ++ ':' :: natChars line ++ ':' :: ' ' :: (kind ++ ':' :: ' ' :: msg)) ∧
    (∀ (path kind msg : List Char) (col : Nat),
       diagChars path 0 col kind msg = path ++ ':' :: ' ' :: (kind ++ ':' :: ' ' :: msg)) ∧
    (∀ (st : LexerSt) (line col : Nat) (msg : List Char), st.error = false →
       (setErrorL st line col msg).err = diagFormat 512 st.path line col ("lexer error".toList) msg) ∧
    (∀ (lexMsg pMsg : List Char) (pErr : Bool),
       parseFinalMessage true lexMsg pErr pMsg = some ((("lexer error: ".toList) ++ lexMsg).take 511)) ∧
    (∀ (lexMsg pMsg : List Char), parseFinalMessage false lexMsg true pMsg = some (pMsg.take 511)) ∧
    (∀ (lexMsg pMsg : List Char), parseFinalMessage false lexMsg false pMsg = none) := by
  refine ⟨?_, ?_, ?_, ?_, ?_, ?_, ?_⟩
  · intro path kind msg line col hl hc
    simp [diagChars, hl, hc]
  · intro path kind msg line hl
    simp [diagChars, hl]
  · intro path kind msg col
    simp [diagChars]
  · intro st line col msg h
    simp [setErrorL, h]
  · intro lexMsg pMsg pErr
    simp [parseFinalMessage]
  · intro lexMsg pMsg
    simp [parseFinalMessage]
  · intro lexMsg pMsg
    simp [parseFinalMessage]

/-- Dropping as many characters as the matched prefix is the same as
dropping the matched prefix. -/
theorem drop_takeWhile_length (l : List Char) (p : Char → Bool) :
    l.drop (l.takeWhile p).length = l.dropWhile p := by
  induction l with
  | nil => rfl
  | cons a as ih =>
    by_cases h : p a <;> simp [List.takeWhile, List.dropWhile, h, ih]

/-- `count_indent_spaces` at the start of a line whose indentation does not
run into a tab: counts the leading spaces and advances past them. -/
theorem countIndentSpaces_no_tab (st : LexerSt) (hpos : st.pos = 0)
    (hTab : (st.linebuf.dropWhile (fun c => c = ' ')).head? ≠ some '\t') :
    countIndentSpaces st = ((st.linebuf.takeWhile (fun c => c = ' ')).length,
      { st with pos := (st.linebuf.takeWhile (fun c => c = ' ')).length }) := by
  unfold countIndentSpaces
  simp only [hpos, List.drop_zero, Nat.zero_add]
  split
  next heq =>
    exfalso
    apply hTab
    rw [← drop_takeWhile_length st.linebuf (fun c => c = ' ')]
    rw [heq]
    rfl
  next => rfl

/-- One blank/comment-only line is skipped by the line loop without touching
the indentation state. -/
theorem ensureLineGo_blank_step (b : List Char) (ins : List (List Char)) (st : LexerSt)
    (hb : isLineBlankOrComment (stripCRLF b) = true) :
    ensureLineGo (b :: ins) st
      = ensureLineGo ins { st with input := ins, linebuf := stripCRLF b,
                                   pos := (stripCRLF b).length, lineNum := st.lineNum + 1 } := by
  rw [ensureLineGo]
  simp only [hb, if_true]

/-- The line loop rejects a logical line whose leading-space count is no
multiple of 4 (when no tab interrupts the count) with the latched
`indentation must be multiple of 4 spaces` error at that line. -/
theorem ensureLineGo_bad_step (bad : List Char) (ins : List (List Char)) (st : LexerSt)
    (hE : st.error = false) (hPar : st.parenDepth = 0)
    (hNB : isLineBlankOrComment (stripCRLF bad) = false)
    (hMod : ((stripCRLF bad).takeWhile (fun c => c = ' ')).length % 4 ≠ 0)
    (hTab : ((stripCRLF bad).dropWhile (fun c => c = ' ')).head? ≠ some '\t') :
    ensureLineGo (bad :: ins) st
      = .inr (makeTok .EOFTOK [] (st.lineNum + 1) 1,
          { st with input := ins, linebuf := stripCRLF bad,
                    pos := ((stripCRLF bad).takeWhile (fun c => c = ' ')).length,
                    lineNum := st.lineNum + 1,
                    error := true,
                    err := diagFormat 512 st.path (st.lineNum + 1) 1 ("lexer error".toList)
                             ("indentation must be multiple of 4 spaces".toList),
                    errLine := st.lineNum + 1, errCol := 1,
                    errMsg := ("indentation must be multiple of 4 spaces").toList }) := by
  rw [ensureLineGo]
  rw [countIndentSpaces_no_tab
    { st with input := ins, linebuf := stripCRLF bad, pos := 0, lineNum := st.lineNum + 1 }
    rfl hTab]
  simp only [hNB, hPar, hE, setErrorL, hMod, Bool.false_eq_true, if_false, if_true,
    ite_true, ite_false, reduceIte, ne_eq, not_false_eq_true]

/-- The line loop reaches the first logical line of the remaining input and
rejects its non-multiple-of-4 indentation at that line, having skipped any
number of blank/comment-only lines before it. -/
theorem ensureLineGo_bad_indent :
    ∀ (blanks : List (List Char)) (st : LexerSt) (bad : List Char) (rest : List (List Char)),
      st.error = false → st.parenDepth = 0 →
      (∀ l ∈ blanks, isLineBlankOrComment (stripCRLF l) = true) →
      isLineBlankOrComment (stripCRLF bad) = false →
      ((stripCRLF bad).takeWhile (fun c => c = ' ')).length % 4 ≠ 0 →
      ((stripCRLF bad).dropWhile (fun c => c = ' ')).head? ≠ some '\t' →
      ∃ st', ensureLineGo (blanks ++ bad :: rest) st
          = .inr (makeTok .EOFTOK [] (st.lineNum + blanks.length + 1) 1, st') ∧
        st'.error = true ∧ st'.errLine = st.lineNum + blanks.length + 1 ∧ st'.errCol = 1 ∧
        st'.errMsg = ("indentation must be multiple of 4 spaces").toList := by
  intro blanks
  induction blanks with
  | nil =>
    intro st bad rest hE hPar hBl hNB hMod hTab
    rw [List.nil_append]
    use { st with input := rest, linebuf := stripCRLF bad, pos := ((stripCRLF bad).takeWhile (fun c => c = ' ')).length, lineNum := st.lineNum + 1, error := true, err := diagFormat 512 st.path (st.lineNum + 1) 1 ("lexer error".toList) ("indentation must be multiple of 4 spaces".toList), errLine := st.lineNum + 1, errCol := 1, errMsg := ("indentation must be multiple of 4 spaces").toList }
    refine ⟨?_, rfl, ?_, rfl, rfl⟩
    · rw [ensureLineGo_bad_step bad rest st hE hPar hNB hMod hTab]
      simp only [List.length_nil, Nat.add_zero]
    · simp only [List.length_nil, Nat.add_zero]
  | cons b bs ih =>
    intro st bad rest hE hPar hBl hNB hMod hTab
    have hb : isLineBlankOrComment (stripCRLF b) = true := hBl b (by simp)
    rw [List.cons_append, ensureLineGo_blank_step b (bs ++ bad :: rest) st hb]
    obtain ⟨st', h1, h2, h3, h4, h5⟩ :=
      ih { st with input := bs ++ bad :: rest, linebuf := stripCRLF b,
                   pos := (stripCRLF b).length, lineNum := st.lineNum + 1 }
        bad rest hE hPar (fun l hl => hBl l (by simp [hl])) hNB hMod hTab
    refine ⟨st', ?_, h2, ?_, h4, h5⟩
    · rw [h1]
      have harith : st.lineNum + 1 + bs.length + 1 = st.lineNum + (b :: bs).length + 1 := by
        simp only [List.length_cons]
        omega
      simp only at harith ⊢
      rw [harith]
    · rw [h3]
      simp only [List.length_cons]
      omega

/-- C7 amended: whenever the lexer - error-free, with no pending block
tokens, outside parentheses - goes to fetch its next line and the remaining
input is some blank/comment-only lines followed by a logical line whose
leading-space count is not a multiple of 4 (and whose indentation does not
run into a tab, which is a different lexical error at the same line),
tokenizing fails with `indentation must be multiple of 4 spaces` latched at
that line; the blank and comment-only lines themselves are skipped without
any indentation check. -/
theorem c7_bad_indent_error (fuel : Nat) (st : LexerSt) (blanks : List (List Char))
    (bad : List Char) (rest : List (List Char))
    (hE : st.error = false) (hPI : st.pendingIndents = 0) (hPD : st.pendingDedents = 0)
    (hPar : st.parenDepth = 0)
    (hLine : st.linebuf.length = 0 ∨ st.linebuf.length ≤ st.pos)
    (hIn : st.input = blanks ++ bad :: rest)
    (hBl : ∀ l ∈ blanks, isLineBlankOrComment (stripCRLF l) = true)
    (hNB : isLineBlankOrComment (stripCRLF bad) = false)
    (hMod : ((stripCRLF bad).takeWhile (fun c => c = ' ')).length % 4 ≠ 0)
    (hTab : ((stripCRLF bad).dropWhile (fun c => c = ' ')).head? ≠ some '\t') :
    ∃ st', nextTokenInternal (fuel + 1) st
        = some (makeTok .EOFTOK [] (st.lineNum + blanks.length + 1) 1, st') ∧
      st'.error = true ∧ st'.errLine = st.lineNum + blanks.length + 1 ∧ st'.errCol = 1 ∧
      st'.errMsg = ("indentation must be multiple of 4 spaces").toList := by
  obtain ⟨st', h1, h2, h3, h4, h5⟩ :=
    ensureLineGo_bad_indent blanks st bad rest hE hPar hBl hNB hMod hTab
  refine ⟨st', ?_, h2, h3, h4, h5⟩
  simp only [nextTokenInternal, hE, Bool.false_eq_true, if_false, hPI, hPD,
    Nat.lt_irrefl, ensureLine]
  rw [if_pos hLine, hIn, h1]

/-- C7 witness: a comment-only first line is skipped, and the 2-space second
line is rejected at line 2. -/
theorem c7_witness :
    (initLexer ("t.noe".toList) ["# a\n".toList, "  x = 1\n".toList]).error = false ∧
    isLineBlankOrComment (stripCRLF ("# a\n".toList)) = true ∧
    isLineBlankOrComment (stripCRLF ("  x = 1\n".toList)) = false ∧
    ((stripCRLF ("  x = 1\n".toList)).takeWhile (fun c => c = ' ')).length % 4 ≠ 0 ∧
    (∃ st', nextTokenInternal 20 (initLexer ("t.noe".toList) ["# a\n".toList, "  x = 1\n".toList])
        = some (makeTok .EOFTOK [] 2 1, st') ∧
      st'.error = true ∧ st'.errLine = 2 ∧ st'.errCol = 1 ∧
      st'.errMsg = ("indentation must be multiple of 4 spaces").toList) := by
  refine ⟨rfl, rfl, rfl, by decide, ?_⟩
  exact c7_bad_indent_error 19 (initLexer ("t.noe".toList) ["# a\n".toList, "  x = 1\n".toList])
    ["# a\n".toList] ("  x = 1\n".toList) [] rfl rfl rfl rfl (Or.inl rfl) rfl
    (by decide) rfl (by decide) (by decide)

/-- C7 counterexample: the claim extends the bad-indentation error to blank
and comment-only lines, but a comment-only line with a 3-space indent lexes
with no error at all: the whole three-line input tokenizes to EOF with the
error flag still clear. -/
theorem c7_counterexample :
    ((stripCRLF ("   # c\n".toList)).takeWhile (fun c => c = ' ')).length % 4 ≠ 0 ∧
    isLineBlankOrComment (stripCRLF ("   # c\n".toList)) = true ∧
    (collectTokens 60 (initLexer ("t.noe".toList)
        ["x = 1\n".toList, "   # c\n".toList, "y = 2\n".toList])).map (fun r => r.2.error)
      = some false := by
  refine ⟨by decide, rfl, rfl⟩

/-- C1 counterexample: the two-line input `x = 1` / eight-spaces `y = 2` has
valid indentation in the claim's sense (counts 0 and 8, both multiples of 4,
no dedent at all), lexes to end-of-input with no error, and the full token
stream carries 2 INDENT tokens but only 1 DEDENT: the jump by two levels
pushes a single stack entry while emitting two INDENTs, so the end-of-input
flush owes only one DEDENT. -/
theorem c1_counterexample :
    claimValidIndent ["x = 1\n".toList, "        y = 2\n".toList] = true ∧
    (collectTokens 60 (initLexer ("t.noe".toList)
        ["x = 1\n".toList, "        y = 2\n".toList])).map
        (fun r => (indentCount r.1, dedentCount r.1, r.2.error))
      = some (2, 1, false) := by
  constructor
  · rfl
  · rfl

/-- `setErrorL` touches only the error fields. -/
theorem setErrorL_fields (st : LexerSt) (line col : Nat) (msg : List Char) :
    (setErrorL st line col msg).input = st.input ∧
    (setErrorL st line col msg).linebuf = st.linebuf ∧
    (setErrorL st line col msg).pos = st.pos ∧
    (setErrorL st line col msg).lineNum = st.lineNum ∧
    (setErrorL st line col msg).indentStack = st.indentStack ∧
    (setErrorL st line col msg).pendingIndents = st.pendingIndents ∧
    (setErrorL st line col msg).pendingDedents = st.pendingDedents ∧
    (setErrorL st line col msg).parenDepth = st.parenDepth := by
  unfold setErrorL
  split <;> simp

/-- `skip_inline_ws` touches only the cursor and the error fields. -/
theorem skipInlineWs_fields (st : LexerSt) :
    (skipInlineWs st).input = st.input ∧
    (skipInlineWs st).linebuf = st.linebuf ∧
    (skipInlineWs st).lineNum = st.lineNum ∧
    (skipInlineWs st).indentStack = st.indentStack ∧
    (skipInlineWs st).pendingIndents = st.pendingIndents ∧
    (skipInlineWs st).pendingDedents = st.pendingDedents ∧
    (skipInlineWs st).parenDepth = st.parenDepth := by
  unfold skipInlineWs
  dsimp only
  split
  next => unfold setErrorL; split <;> simp
  next => simp

/-- `count_indent_spaces` touches only the cursor and the error fields. -/
theorem countIndentSpaces_fields (s : LexerSt) :
    (countIndentSpaces s).2.input = s.input ∧
    (countIndentSpaces s).2.linebuf = s.linebuf ∧
    (countIndentSpaces s).2.lineNum = s.lineNum ∧
    (countIndentSpaces s).2.indentStack = s.indentStack ∧
    (countIndentSpaces s).2.pendingIndents = s.pendingIndents ∧
    (countIndentSpaces s).2.pendingDedents = s.pendingDedents ∧
    (countIndentSpaces s).2.parenDepth = s.parenDepth := by
  unfold countIndentSpaces
  dsimp only
  split
  next => unfold setErrorL; split <;> simp
  next => simp

/-- The dedent pop loop: the pops and the remaining stack account for the
whole stack, and a nonempty stack stays nonempty. -/
theorem popLevels_spec : ∀ (stack : List Nat) (newI : Nat),
    (popLevels stack newI).1.length + (popLevels stack newI).2 = stack.length ∧
    (stack ≠ [] → (popLevels stack newI).1 ≠ []) := by
  intro stack newI
  induction stack with
  | nil => simp [popLevels]
  | cons x rest ih =>
    cases rest with
    | nil => simp [popLevels]
    | cons y r =>
      by_cases h : newI < x
      · obtain ⟨ih1, ih2⟩ := ih
        cases hsp : popLevels (y :: r) newI with
        | mk s p =>
          rw [hsp] at ih1 ih2
          simp only [popLevels, h, if_true, hsp]
          refine ⟨?_, fun _ => ?_⟩
          · simp only [List.length_cons] at ih1 ⊢
            omega
          · exact ih2 (by simp)
      · simp [popLevels, h]

/-- If the pop loop popped nothing, the stack is unchanged. -/
theorem popLevels_zero : ∀ (stack : List Nat) (newI : Nat),
    (popLevels stack newI).2 = 0 → (popLevels stack newI).1 = stack := by
  intro stack newI
  match stack with
  | [] => simp [popLevels]
  | [x] => simp [popLevels]
  | x :: y :: r =>
    by_cases h : newI < x
    · cases hsp : popLevels (y :: r) newI with
      | mk s p =>
        simp only [popLevels, h, if_true, hsp]
        intro hp
        omega
    · simp [popLevels, h]

/-- Debt accounting for the line loop: a `.inl` exit changes no indentation
state; a `.inr` token (in an error-free, single-level-jump step) pays its
delta out of the debt, the EOF token occurs only at zero debt, and the stack
stays nonempty. -/
theorem ensureLineGo_debt :
    ∀ (input : List (List Char)) (st : LexerSt),
      st.error = false → st.pendingIndents = 0 → st.pendingDedents = 0 →
      st.indentStack ≠ [] →
      ((∀ st1, ensureLineGo input st = .inl st1 →
          indentDebt st1 = indentDebt st ∧ st1.indentStack = st.indentStack ∧
          st1.pendingIndents = 0 ∧ st1.pendingDedents = 0) ∧
       (∀ t st', ensureLineGo input st = .inr (t, st') →
          st'.error = false → st'.pendingIndents = 0 →
          tokDelta t + indentDebt st' = indentDebt st ∧
          (t.type = TokType.EOFTOK → indentDebt st = 0 ∧ indentDebt st' = 0) ∧
          st'.indentStack ≠ [])) := by
  intro input
  induction input with
  | nil =>
    intro st hE hPI hPD hS
    have hlen : 0 < st.indentStack.length := List.length_pos.mpr hS
    constructor
    · intro st1 h
      rw [ensureLineGo] at h
      dsimp only at h
      split at h <;> simp at h
    · intro t st' h hE' hPI'
      rw [ensureLineGo] at h
      dsimp only at h
      split at h
      next hgt =>
        simp only [Sum.inr.injEq, Prod.mk.injEq] at h
        obtain ⟨rfl, rfl⟩ := h
        refine ⟨?_, ?_, ?_⟩
        · simp [tokDelta, makeTok, indentDebt, hPI, hPD]
          omega
        · intro htype; simp [makeTok] at htype
        · simp
      next hle =>
        simp only [Sum.inr.injEq, Prod.mk.injEq] at h
        obtain ⟨rfl, rfl⟩ := h
        have hone : st.indentStack.length = 1 := by omega
        refine ⟨?_, ?_, ?_⟩
        · simp [tokDelta, makeTok, indentDebt, hPI, hPD, hone]
        · intro _
          constructor <;> simp [indentDebt, hPI, hPD, hone]
        · simpa using hS
  | cons ln rest ih =>
    intro st hE hPI hPD hS
    by_cases hb : isLineBlankOrComment (stripCRLF ln) = true
    · have step := ensureLineGo_blank_step ln rest st hb
      have ihs := ih { st with input := rest, linebuf := stripCRLF ln, pos := (stripCRLF ln).length, lineNum := st.lineNum + 1 } hE hPI hPD hS
      constructor
      · intro st1 h
        rw [step] at h
        exact ihs.1 st1 h
      · intro t st' h hE' hPI'
        rw [step] at h
        exact ihs.2 t st' h hE' hPI'
    · have hb' : isLineBlankOrComment (stripCRLF ln) = false := by
        simpa using hb
      by_cases hPar : st.parenDepth = 0
      · cases hCI : countIndentSpaces { st with input := rest, linebuf := stripCRLF ln, pos := 0, lineNum := st.lineNum + 1 } with
        | mk spaces st2 =>
          have hf := countIndentSpaces_fields { st with input := rest, linebuf := stripCRLF ln, pos := 0, lineNum := st.lineNum + 1 }
          rw [hCI] at hf
          obtain ⟨hf1, hf2, hf3, hf4, hf5, hf6, hf7⟩ := hf
          simp only at hf1 hf2 hf3 hf4 hf5 hf6 hf7
          have hdebt2 : indentDebt st2 = indentDebt st := by
            simp [indentDebt, hf4, hf5, hf6]
          constructor
          · intro st1 h
            rw [ensureLineGo] at h
            dsimp only at h
            rw [hb'] at h
            simp only [Bool.false_eq_true, if_false] at h
            simp only [hCI] at h
            rw [if_pos hPar] at h
            split at h
            · simp at h
            · split at h
              · simp at h
              · split at h
                · split at h
                  · simp at h
                  · simp at h
                · split at h
                  · split at h
                    · simp at h
                    · simp at h
                  · simp only [Sum.inl.injEq] at h
                    subst h
                    exact ⟨hdebt2, hf4, by rw [hf5]; exact hPI, by rw [hf6]; exact hPD⟩
          · intro t st' h hE' hPI'
            rw [ensureLineGo] at h
            dsimp only at h
            rw [hb'] at h
            simp only [Bool.false_eq_true, if_false] at h
            simp only [hCI] at h
            rw [if_pos hPar] at h
            split at h
            next hErr2 =>
              -- tab error inside the count: st' carries the error, excluded
              simp only [Sum.inr.injEq, Prod.mk.injEq] at h
              obtain ⟨rfl, rfl⟩ := h
              rw [hErr2] at hE'
              simp at hE'
            next hErr2 =>
              split at h
              next hMod =>
                -- non-multiple-of-4: latched error, excluded
                simp only [Sum.inr.injEq, Prod.mk.injEq] at h
                obtain ⟨rfl, rfl⟩ := h
                rw [setErrorL] at hE'
                rw [if_neg (by simp [hErr2])] at hE'
                simp at hE'
              next hMod =>
                split at h
                next hUp =>
                  split at h
                  next hOver =>
                    -- indent stack overflow: latched error, excluded
                    simp only [Sum.inr.injEq, Prod.mk.injEq] at h
                    obtain ⟨rfl, rfl⟩ := h
                    rw [setErrorL] at hE'
                    rw [if_neg (by simp [hErr2])] at hE'
                    simp at hE'
                  next hOver =>
                    -- push of a new level
                    simp only [Sum.inr.injEq, Prod.mk.injEq] at h
                    obtain ⟨rfl, rfl⟩ := h
                    simp only at hPI'
                    refine ⟨?_, ?_, ?_⟩
                    · simp [tokDelta, makeTok, indentDebt] at hPI' ⊢
                      simp only [hf4, hf5, hf6, hPI, hPD] at hPI' ⊢
                      omega
                    · intro htype; simp [makeTok] at htype
                    · simp
                next hUp =>
                  split at h
                  next hDown =>
                    cases hPL : popLevels st2.indentStack (spaces / 4) with
                    | mk stack2 pops =>
                      rw [hPL] at h
                      dsimp only at h
                      split at h
                      next hBadTop =>
                        -- inconsistent dedent: latched error, excluded
                        simp only [Sum.inr.injEq, Prod.mk.injEq] at h
                        obtain ⟨rfl, rfl⟩ := h
                        rw [setErrorL] at hE'
                        rw [if_neg (by simp [hErr2])] at hE'
                        simp at hE'
                      next hTop =>
                        -- dedent by pops levels
                        simp only [Sum.inr.injEq, Prod.mk.injEq] at h
                        obtain ⟨rfl, rfl⟩ := h
                        have hspec := popLevels_spec st2.indentStack (spaces / 4)
                        rw [hPL] at hspec
                        obtain ⟨hlen2, hne2⟩ := hspec
                        have hS2 : st2.indentStack ≠ [] := by rw [hf4]; exact hS
                        have hpops : 0 < pops := by
                          rcases Nat.eq_zero_or_pos pops with h0 | h1
                          · exfalso
                            have := popLevels_zero st2.indentStack (spaces / 4) (by rw [hPL]; exact h0)
                            rw [hPL] at this
                            simp only at this
                            subst this
                            rw [hf4] at hTop
                            omega
                          · exact h1
                        refine ⟨?_, ?_, ?_⟩
                        · simp [tokDelta, makeTok, indentDebt]
                          simp only [hf4, hf5, hf6, hPI, hPD] at hlen2 ⊢
                          have hpos : 0 < st.indentStack.length := List.length_pos.mpr hS
                          omega
                        · intro htype; simp [makeTok] at htype
                        · simp only
                          exact hne2 hS2
                  next hDown =>
                    simp at h
      · -- inside parentheses: only inline whitespace is skipped
        constructor
        · intro st1 h
          rw [ensureLineGo] at h
          dsimp only at h
          rw [hb'] at h
          simp only [Bool.false_eq_true, if_false] at h
          rw [if_neg hPar] at h
          simp only [Sum.inl.injEq] at h
          subst h
          obtain ⟨k1, k2, k3, k4, k5, k6, k7⟩ := skipInlineWs_fields { st with input := rest, linebuf := stripCRLF ln, pos := 0, lineNum := st.lineNum + 1 }
          simp only at k4 k5 k6
          exact ⟨by simp [indentDebt, k4, k5, k6], k4, by rw [k5]; exact hPI, by rw [k6]; exact hPD⟩
        · intro t st' h hE' hPI'
          rw [ensureLineGo] at h
          dsimp only at h
          rw [hb'] at h
          simp only [Bool.false_eq_true, if_false] at h
          rw [if_neg hPar] at h
          simp at h

/-- `lex_string` emits a STRING token (never a block token) and leaves the
indentation state alone. -/
theorem lexStringTok_spec (s : LexerSt) (col : Nat) :
    tokDelta (lexStringTok s col).1 = 0 ∧
    (lexStringTok s col).1.type ≠ TokType.EOFTOK ∧
    (lexStringTok s col).2.indentStack = s.indentStack ∧
    (lexStringTok s col).2.pendingIndents = s.pendingIndents ∧
    (lexStringTok s col).2.pendingDedents = s.pendingDedents := by
  unfold lexStringTok
  dsimp only
  split
  next => exact ⟨by simp [tokDelta, makeTok], by simp [makeTok], rfl, rfl, rfl⟩
  next =>
    refine ⟨by simp [tokDelta, makeTok], by simp [makeTok], ?_, ?_, ?_⟩ <;>
      (unfold setErrorL; split <;> simp)

/-- `lex_number` emits a NUMBER token and leaves the indentation state
alone. -/
theorem lexNumber_spec (s : LexerSt) (col : Nat) :
    tokDelta (lexNumber s col).1 = 0 ∧
    (lexNumber s col).1.type ≠ TokType.EOFTOK ∧
    (lexNumber s col).2.indentStack = s.indentStack ∧
    (lexNumber s col).2.pendingIndents = s.pendingIndents ∧
    (lexNumber s col).2.pendingDedents = s.pendingDedents :=
  ⟨by simp [lexNumber, tokDelta, makeTok], by simp [lexNumber, makeTok], rfl, rfl, rfl⟩

/-- `lex_identifier_or_keyword` emits a KEYWORD or IDENTIFIER token and
leaves the indentation state alone. -/
theorem lexIdentKw_spec (s : LexerSt) (col : Nat) :
    tokDelta (lexIdentKw s col).1 = 0 ∧
    (lexIdentKw s col).1.type ≠ TokType.EOFTOK ∧
    (lexIdentKw s col).2.indentStack = s.indentStack ∧
    (lexIdentKw s col).2.pendingIndents = s.pendingIndents ∧
    (lexIdentKw s col).2.pendingDedents = s.pendingDedents := by
  unfold lexIdentKw
  dsimp only
  refine ⟨?_, ?_, rfl, rfl, rfl⟩ <;> (split <;> simp [tokDelta, makeTok])

/-- `lex_operator_or_punct` emits an operator-family token (never a block or
EOF token) and leaves the indentation state alone. -/
theorem lexOpPunct_spec (s : LexerSt) (c : Char) (col : Nat) :
    tokDelta (lexOpPunct s c col).1 = 0 ∧
    (lexOpPunct s c col).1.type ≠ TokType.EOFTOK ∧
    (lexOpPunct s c col).2.indentStack = s.indentStack ∧
    (lexOpPunct s c col).2.pendingIndents = s.pendingIndents ∧
    (lexOpPunct s c col).2.pendingDedents = s.pendingDedents := by
  unfold lexOpPunct
  split_ifs <;>
    (try split) <;>
    refine ⟨by simp [tokDelta, makeTok], by simp [makeTok], ?_, ?_, ?_⟩ <;>
    (first
      | rfl
      | (unfold setErrorL; split <;> simp))

/-- Debt accounting for `ensureLine`: the entry check either leaves the
state untouched or defers to the line loop. -/
theorem ensureLine_debt (st : LexerSt)
    (hE : st.error = false) (hPI : st.pendingIndents = 0) (hPD : st.pendingDedents = 0)
    (hS : st.indentStack ≠ []) :
    (∀ st1, ensureLine st = .inl st1 →
        indentDebt st1 = indentDebt st ∧ st1.indentStack = st.indentStack ∧
        st1.pendingIndents = 0 ∧ st1.pendingDedents = 0) ∧
    (∀ t st', ensureLine st = .inr (t, st') →
        st'.error = false → st'.pendingIndents = 0 →
        tokDelta t + indentDebt st' = indentDebt st ∧
        (t.type = TokType.EOFTOK → indentDebt st = 0 ∧ indentDebt st' = 0) ∧
        st'.indentStack ≠ []) := by
  by_cases hcond : st.linebuf.length = 0 ∨ st.linebuf.length ≤ st.pos
  · have he : ensureLine st = ensureLineGo st.input st := by
      unfold ensureLine; rw [if_pos hcond]
    rw [he]
    exact ensureLineGo_debt st.input st hE hPI hPD hS
  · have he : ensureLine st = .inl st := by
      unfold ensureLine; rw [if_neg hcond]
    rw [he]
    constructor
    · intro st1 h
      simp only [Sum.inl.injEq] at h
      subst h
      exact ⟨rfl, rfl, hPI, hPD⟩
    · intro t st' h
      simp at h

/-- Per-token debt conservation for `next_token_internal`, for error-free
steps whose pending-INDENT queue is empty before and after (that is, steps of
a run in which every indentation increase is a single level): the emitted
token's INDENT/DEDENT contribution is paid exactly out of the indent debt,
the EOF token appears only at zero debt, and the indent stack stays
nonempty. -/
theorem step_debt : ∀ (fuel : Nat) (st : LexerSt) (t : Token) (st' : LexerSt),
    nextTokenInternal fuel st = some (t, st') →
    st.error = false → st.pendingIndents = 0 →
    st'.error = false → st'.pendingIndents = 0 →
    st.indentStack ≠ [] →
    tokDelta t + indentDebt st' = indentDebt st ∧
    (t.type = TokType.EOFTOK → indentDebt st = 0 ∧ indentDebt st' = 0) ∧
    st'.indentStack ≠ [] := by
  intro fuel
  induction fuel with
  | zero =>
    intro st t st' h
    simp [nextTokenInternal] at h
  | succ f ih =>
    intro st t st' h hE hPI hE' hPI' hS
    rw [nextTokenInternal] at h
    rw [if_neg (by simp [hE])] at h
    rw [if_neg (by simp [hPI])] at h
    by_cases hPD : 0 < st.pendingDedents
    · rw [if_pos hPD] at h
      simp only [Option.some.injEq, Prod.mk.injEq] at h
      obtain ⟨rfl, rfl⟩ := h
      refine ⟨?_, ?_, ?_⟩
      · simp [tokDelta, makeTok, indentDebt]
        omega
      · intro htype; simp [makeTok] at htype
      · simpa using hS
    · rw [if_neg hPD] at h
      have hPD0 : st.pendingDedents = 0 := by omega
      obtain ⟨elD1, elD2⟩ := ensureLine_debt st hE hPI hPD0 hS
      cases hEL : ensureLine st with
      | inr r =>
        obtain ⟨tok2, stR⟩ := r
        rw [hEL] at h
        simp only [Option.some.injEq] at h
        obtain ⟨rfl, rfl⟩ : tok2 = t ∧ stR = st' := by
          constructor <;> [exact congrArg Prod.fst h; exact congrArg Prod.snd h]
        exact elD2 _ _ hEL hE' hPI'
      | inl st1 =>
        rw [hEL] at h
        dsimp only at h
        obtain ⟨d1, d2, d3, d4⟩ := elD1 st1 hEL
        obtain ⟨w1, w2, w3, w4, w5, w6, w7⟩ := skipInlineWs_fields st1
        have hdebtW : indentDebt (skipInlineWs st1) = indentDebt st := by
          rw [← d1]
          simp [indentDebt, w4, w5, w6]
        have hstackW : (skipInlineWs st1).indentStack ≠ [] := by
          rw [w4, d2]; exact hS
        have hpiW : (skipInlineWs st1).pendingIndents = 0 := by rw [w5]; exact d3
        by_cases hW : (skipInlineWs st1).error = true
        · rw [if_pos hW] at h
          simp only [Option.some.injEq, Prod.mk.injEq] at h
          obtain ⟨rfl, rfl⟩ := h
          rw [hW] at hE'
          simp at hE'
        · rw [if_neg hW] at h
          have hWf : (skipInlineWs st1).error = false := by
            simpa using hW
          split at h
          · -- comment: pos jumps to end of line
            split at h
            · -- NEWLINE at paren depth zero
              simp only [Option.some.injEq, Prod.mk.injEq] at h
              obtain ⟨rfl, rfl⟩ := h
              refine ⟨?_, ?_, ?_⟩
              · simp only [tokDelta, makeTok]
                rw [← hdebtW]
                simp [indentDebt]
              · intro htype; simp [makeTok] at htype
              · simpa using hstackW
            · -- swallowed inside parentheses: recurse
              have := ih _ t st' h hWf (by simpa using hpiW) hE' hPI' (by simpa using hstackW)
              refine ⟨?_, ?_, this.2.2⟩
              · rw [this.1]
                rw [← hdebtW]
                simp [indentDebt]
              · intro htype
                obtain ⟨z1, z2⟩ := this.2.1 htype
                refine ⟨?_, z2⟩
                rw [← hdebtW, ← z1]
                simp [indentDebt]
          · -- newline character
            split at h
            · simp only [Option.some.injEq, Prod.mk.injEq] at h
              obtain ⟨rfl, rfl⟩ := h
              refine ⟨?_, ?_, ?_⟩
              · simp only [tokDelta, makeTok]
                rw [← hdebtW]
                simp [indentDebt]
              · intro htype; simp [makeTok] at htype
              · simpa using hstackW
            · have := ih _ t st' h hWf (by simpa using hpiW) hE' hPI' (by simpa using hstackW)
              refine ⟨?_, ?_, this.2.2⟩
              · rw [this.1]
                rw [← hdebtW]
                simp [indentDebt]
              · intro htype
                obtain ⟨z1, z2⟩ := this.2.1 htype
                refine ⟨?_, z2⟩
                rw [← hdebtW, ← z1]
                simp [indentDebt]
          · -- end of buffer
            split at h
            · simp only [Option.some.injEq, Prod.mk.injEq] at h
              obtain ⟨rfl, rfl⟩ := h
              refine ⟨?_, ?_, ?_⟩
              · simp only [tokDelta, makeTok]
                rw [← hdebtW]
                simp [indentDebt]
              · intro htype; simp [makeTok] at htype
              · exact hstackW
            · have := ih _ t st' h hWf hpiW hE' hPI' hstackW
              exact ⟨by rw [this.1, hdebtW], fun htype => by
                obtain ⟨z1, z2⟩ := this.2.1 htype
                exact ⟨by rw [← hdebtW, z1], z2⟩, this.2.2⟩
          · -- a real character: string, number, identifier or operator token
            split at h
            · simp only [Option.some.injEq] at h
              obtain ⟨hs1, hs2⟩ : (lexStringTok (skipInlineWs st1) ((skipInlineWs st1).pos + 1)).1 = t ∧
                  (lexStringTok (skipInlineWs st1) ((skipInlineWs st1).pos + 1)).2 = st' := by
                constructor <;> [exact congrArg Prod.fst h; exact congrArg Prod.snd h]
              obtain ⟨q1, q2, q3, q4, q5⟩ := lexStringTok_spec (skipInlineWs st1) ((skipInlineWs st1).pos + 1)
              rw [hs1] at q1 q2
              rw [hs2] at q3 q4 q5
              refine ⟨?_, fun htype => absurd htype q2, ?_⟩
              · rw [q1, ← hdebtW]
                simp [indentDebt, q3, q4, q5]
              · rw [q3, w4, d2]; exact hS
            · split at h
              · simp only [Option.some.injEq] at h
                obtain ⟨hs1, hs2⟩ : (lexNumber (skipInlineWs st1) ((skipInlineWs st1).pos + 1)).1 = t ∧
                    (lexNumber (skipInlineWs st1) ((skipInlineWs st1).pos + 1)).2 = st' := by
                  constructor <;> [exact congrArg Prod.fst h; exact congrArg Prod.snd h]
                obtain ⟨q1, q2, q3, q4, q5⟩ := lexNumber_spec (skipInlineWs st1) ((skipInlineWs st1).pos + 1)
                rw [hs1] at q1 q2
                rw [hs2] at q3 q4 q5
                refine ⟨?_, fun htype => absurd htype q2, ?_⟩
                · rw [q1, ← hdebtW]
                  simp [indentDebt, q3, q4, q5]
                · rw [q3, w4, d2]; exact hS
              · split at h
                · simp only [Option.some.injEq] at h
                  obtain ⟨hs1, hs2⟩ : (lexIdentKw (skipInlineWs st1) ((skipInlineWs st1).pos + 1)).1 = t ∧
                      (lexIdentKw (skipInlineWs st1) ((skipInlineWs st1).pos + 1)).2 = st' := by
                    constructor <;> [exact congrArg Prod.fst h; exact congrArg Prod.snd h]
                  obtain ⟨q1, q2, q3, q4, q5⟩ := lexIdentKw_spec (skipInlineWs st1) ((skipInlineWs st1).pos + 1)
                  rw [hs1] at q1 q2
                  rw [hs2] at q3 q4 q5
                  refine ⟨?_, fun htype => absurd htype q2, ?_⟩
                  · rw [q1, ← hdebtW]
                    simp [indentDebt, q3, q4, q5]
                  · rw [q3, w4, d2]; exact hS
                · simp only [Option.some.injEq] at h
                  rename_i c tail hxa hxb heqD hqa hqb hqc
                  obtain ⟨hs1, hs2⟩ : (lexOpPunct { skipInlineWs st1 with pos := (skipInlineWs st1).pos + 1 } c ((skipInlineWs st1).pos + 1)).1 = t ∧
                      (lexOpPunct { skipInlineWs st1 with pos := (skipInlineWs st1).pos + 1 } c ((skipInlineWs st1).pos + 1)).2 = st' := by
                    constructor <;> [exact congrArg Prod.fst h; exact congrArg Prod.snd h]
                  obtain ⟨q1, q2, q3, q4, q5⟩ := lexOpPunct_spec { skipInlineWs st1 with pos := (skipInlineWs st1).pos + 1 } c ((skipInlineWs st1).pos + 1)
                  rw [hs1] at q1 q2
                  rw [hs2] at q3 q4 q5
                  simp only at q3 q4 q5
                  refine ⟨?_, fun htype => absurd htype q2, ?_⟩
                  · rw [q1, ← hdebtW]
                    simp [indentDebt, q3, q4, q5]
                  · rw [q3, w4, d2]; exact hS

/-- Over a complete run (fuel suffices, the trace check holds), the
INDENT-minus-DEDENT balance of the emitted tokens equals the starting indent
debt. -/
theorem collect_debt : ∀ (fuel : Nat) (st : LexerSt) (toks : List Token) (stF : LexerSt),
    traceOk fuel st = true → collectTokens fuel st = some (toks, stF) →
    st.indentStack ≠ [] →
    deltaSum toks = indentDebt st := by
  intro fuel
  induction fuel with
  | zero =>
    intro st toks stF htr
    simp [traceOk] at htr
  | succ f ih =>
    intro st toks stF htr hcol hS
    rw [traceOk] at htr
    rw [collectTokens] at hcol
    cases hnt : nextTokenInternal (f + 1) st with
    | none =>
      rw [hnt] at hcol
      simp at hcol
    | some r =>
      obtain ⟨t, st'⟩ := r
      rw [hnt] at htr hcol
      dsimp only at hcol
      simp only [Bool.and_eq_true, beq_iff_eq, Bool.not_eq_true'] at htr
      obtain ⟨⟨hPI, hE⟩, htr2⟩ := htr
      by_cases hEOF : t.type = TokType.EOFTOK
      · rw [if_pos hEOF] at hcol htr2
        simp only [Option.some.injEq, Prod.mk.injEq] at hcol
        obtain ⟨rfl, rfl⟩ := hcol
        simp only [Bool.and_eq_true, beq_iff_eq, Bool.not_eq_true'] at htr2
        obtain ⟨hPI', hE'⟩ := htr2
        have hsd := step_debt (f + 1) st t st' hnt hE hPI hE' hPI' hS
        obtain ⟨hz1, hz2⟩ := hsd.2.1 hEOF
        have h1 := hsd.1
        simp only [deltaSum, List.map_cons, List.map_nil, List.sum_cons, List.sum_nil]
        omega
      · rw [if_neg hEOF] at hcol htr2
        cases hrest : collectTokens f st' with
        | none =>
          rw [hrest] at hcol
          simp at hcol
        | some r2 =>
          obtain ⟨ts, stF2⟩ := r2
          rw [hrest] at hcol
          simp only [Option.some.injEq, Prod.mk.injEq] at hcol
          obtain ⟨rfl, rfl⟩ := hcol
          cases f with
          | zero => simp [traceOk] at htr2
          | succ g =>
            have hparts := htr2
            rw [traceOk] at hparts
            simp only [Bool.and_eq_true, beq_iff_eq, Bool.not_eq_true'] at hparts
            obtain ⟨⟨hPI', hE'⟩, _⟩ := hparts
            have hsd := step_debt _ st t st' hnt hE hPI hE' hPI' hS
            have ihr := ih st' ts stF2 htr2 hrest hsd.2.2
            simp only [deltaSum, List.map_cons, List.sum_cons] at ihr ⊢
            rw [ihr]
            exact hsd.1

/-- The token-list balance equals the INDENT count minus the DEDENT count. -/
theorem deltaSum_counts : ∀ ts : List Token,
    deltaSum ts = (indentCount ts : Int) - (dedentCount ts : Int) := by
  intro ts
  induction ts with
  | nil => simp [deltaSum, indentCount, dedentCount]
  | cons t ts ih =>
    by_cases h1 : t.type = TokType.INDENT
    · simp [deltaSum, indentCount, dedentCount, List.filter_cons, tokDelta, h1] at ih ⊢
      omega
    · by_cases h2 : t.type = TokType.DEDENT
      · simp [deltaSum, indentCount, dedentCount, List.filter_cons, tokDelta, h1, h2] at ih ⊢
        omega
      · simp [deltaSum, indentCount, dedentCount, List.filter_cons, tokDelta, h1, h2] at ih ⊢
        omega

/-- C1 amended: over every complete, error-free token stream from the start
of the input in which each indentation increase is a single level (the
pending-INDENT queue stays empty at every observed state - `traceOk`), the
number of INDENT tokens equals the number of DEDENT tokens, the DEDENTs
flushed at end-of-input included.  (A jump of more than one level breaks the
balance: see the counterexample.) -/
theorem c1_indent_dedent_balance (fuel : Nat) (path : List Char) (lines : List (List Char))
    (toks : List Token) (stF : LexerSt)
    (htr : traceOk fuel (initLexer path lines) = true)
    (hcol : collectTokens fuel (initLexer path lines) = some (toks, stF)) :
    indentCount toks = dedentCount toks := by
  have h := collect_debt fuel (initLexer path lines) toks stF htr hcol (by simp [initLexer])
  rw [deltaSum_counts toks] at h
  have hz : indentDebt (initLexer path lines) = 0 := by simp [indentDebt, initLexer]
  rw [hz] at h
  omega

/-- C1 witness: a single-level block program balances (one INDENT, one
DEDENT), and the balance theorem applies to its run. -/
theorem c1_witness :
    traceOk 40 (initLexer ("t.noe".toList) ["si verum:\n".toList, "    x = 1\n".toList]) = true ∧
    (collectTokens 40 (initLexer ("t.noe".toList) ["si verum:\n".toList, "    x = 1\n".toList])).map
        (fun r => (indentCount r.1, dedentCount r.1)) = some (1, 1) ∧
    (∀ toks stF,
       collectTokens 40 (initLexer ("t.noe".toList) ["si verum:\n".toList, "    x = 1\n".toList])
         = some (toks, stF) →
       indentCount toks = dedentCount toks) :=
  ⟨by rfl, by rfl,
   fun toks stF h =>
     c1_indent_dedent_balance 40 ("t.noe".toList) ["si verum:\n".toList, "    x = 1\n".toList]
       toks stF (by rfl) h⟩
